import Mathlib

set_option maxHeartbeats 1000000

/-!
Shallow embedding of the assistant-bot address book core:
`assistant_bot/domain/models.py` and
`assistant_bot/services/address_book_service.py`.

Strings are modelled as Lean `String` (lists of characters); Python's
regex digit class `\d` / whitespace class `\s` are modelled by their
ASCII parts (`Char.isDigit`, `pySpace`), which cover every input the
program's own normalization can produce.  Fallible Python code
(raising `ValidationError`, `ContactNotFound`, ...) is modelled with
`Except Err` / `Option`; partially committed state is made explicit by
returning the book together with the outcome.
-/

/-- Error kinds raised by the domain and service layers
(`domain/exceptions.py`). -/
inductive Err where
  | validation
  | contactNotFound
  | phoneNotFound
  | duplicatePhone
  | duplicateEmail
  | noteNotFound
  deriving DecidableEq, Repr

/-! ### Phone normalization and validation (`Phone` in models.py) -/

/-- Character-list level of `Phone._normalize`: strip non-digit
characters; a 10-digit result gets the `+38` prefix, a 12-digit result
gets `+`, anything else also gets `+`; the empty string is returned
unchanged. -/
def normList (cs : List Char) : List Char :=
  if cs = [] then []
  else if (cs.filter Char.isDigit).length = 10 then '+' :: '3' :: '8' :: cs.filter Char.isDigit
  else if (cs.filter Char.isDigit).length = 12 then '+' :: cs.filter Char.isDigit
  else '+' :: cs.filter Char.isDigit

/-- Model of `Phone._normalize` (a `String` is its list of
characters). -/
def Phone.normalize (s : String) : String := ⟨normList s.data⟩

/-- Core of the pattern `^\+38\d{10}$`: literal `+38` followed by exactly
ten digits. -/
def phoneCore (cs : List Char) : Bool :=
  match cs with
  | '+' :: '3' :: '8' :: rest => rest.length == 10 && rest.all Char.isDigit
  | _ => false

/-- Model of `Phone._validate` (`re.match(r'^\+38\d{10}$', s)`); Python's
`$` also matches just before one trailing newline, which the second
disjunct reproduces. -/
def phoneValidate (s : String) : Bool :=
  phoneCore s.data ||
    (match s.data.getLast? with
     | some c => c == '\n' && phoneCore s.data.dropLast
     | none => false)

/-- Model of the `Phone` constructor: Phone.normalize, then validate; `none`
models a raised `ValidationError`. -/
def phoneMk (s : String) : Option String :=
  if phoneValidate (Phone.normalize s) then some (Phone.normalize s) else none

/-! ### Email validation (`Email` in models.py) -/

/-- ASCII part of Python's regex whitespace class `\s`. -/
def pySpace (c : Char) : Bool :=
  c == ' ' || c == '\t' || c == '\n' || c == '\r' || c == '\x0b' || c == '\x0c'

/-- Characters allowed by `[^@\s]`. -/
def emailChar (c : Char) : Bool :=
  !(c == '@') && !(pySpace c)

/-- Splits a character list at its first `'@'`, if any. -/
def splitAtAt : List Char → Option (List Char × List Char)
  | [] => none
  | c :: t =>
    if c = '@' then some ([], t)
    else
      match splitAtAt t with
      | some (a, b) => some (c :: a, b)
      | none => none

/-- Core of the pattern `^[^@\s]+@[^@\s]+\.[^@\s]+$`: a nonempty local
part without `@`/whitespace, then `@`, then a domain without
`@`/whitespace containing a dot that is neither its first nor its last
character. -/
def emailCore (cs : List Char) : Bool :=
  match splitAtAt cs with
  | none => false
  | some (loc, dom) =>
    !loc.isEmpty && loc.all emailChar && dom.all emailChar &&
      (match dom with
       | [] => false
       | _ :: t => t.dropLast.contains '.')

/-- Model of `Email._validate`; as with phones, Python's `$` also accepts
one trailing newline. -/
def emailValid (s : String) : Bool :=
  emailCore s.data ||
    (match s.data.getLast? with
     | some c => c == '\n' && emailCore s.data.dropLast
     | none => false)

/-! ### Calendar arithmetic (Python `datetime.date`) -/

/-- Gregorian leap-year test, as in Python's `calendar.isleap`. -/
def isLeap (y : Nat) : Bool :=
  y % 4 == 0 && (y % 100 != 0 || y % 400 == 0)

/-- Length of month `m` (1-12) in a year of the given leapness. -/
def daysInMonthB (leap : Bool) (m : Nat) : Nat :=
  if m = 2 then (if leap then 29 else 28)
  else if m = 4 ∨ m = 6 ∨ m = 9 ∨ m = 11 then 30
  else if 1 ≤ m ∧ m ≤ 12 then 31
  else 0

/-- Cumulative day count before month `m` in a non-leap year. -/
def monthCum (m : Nat) : Nat :=
  if m = 1 then 0 else if m = 2 then 31 else if m = 3 then 59
  else if m = 4 then 90 else if m = 5 then 120 else if m = 6 then 151
  else if m = 7 then 181 else if m = 8 then 212 else if m = 9 then 243
  else if m = 10 then 273 else if m = 11 then 304 else if m = 12 then 334
  else 365

/-- Days before month `m` in a year of the given leapness. -/
def daysBeforeMonthB (leap : Bool) (m : Nat) : Nat :=
  monthCum m + (if leap ∧ 3 ≤ m then 1 else 0)

/-- Days before January 1st of year `y` (Python `_days_before_year`). -/
def daysBeforeYear (y : Nat) : Nat :=
  365 * (y - 1) + (y - 1) / 4 - (y - 1) / 100 + (y - 1) / 400

/-- A date is a `(year, month, day)` triple. -/
abbrev PDate := Nat × Nat × Nat

/-- Validity check performed by the `datetime.date` constructor
(and hence by `date.replace`): year in `[1, 9999]`, month in `[1, 12]`,
day in `[1, days_in_month]`. -/
def validDate (y m d : Nat) : Bool :=
  decide (1 ≤ y) && decide (y ≤ 9999) && decide (1 ≤ m) && decide (m ≤ 12) &&
    decide (1 ≤ d) && decide (d ≤ daysInMonthB (isLeap y) m)

/-- Python `date.toordinal` (days since 0001-01-01, 1-based). -/
def toOrdinal (a : PDate) : Nat :=
  daysBeforeYear a.1 + daysBeforeMonthB (isLeap a.1) a.2.1 + a.2.2

/-- Python `date` comparison: lexicographic on (year, month, day). -/
def dateLt (a b : PDate) : Bool :=
  decide (a.1 < b.1) ||
    (decide (a.1 = b.1) &&
      (decide (a.2.1 < b.2.1) ||
        (decide (a.2.1 = b.2.1) && decide (a.2.2 < b.2.2))))

/-! ### Birthday parsing (`Birthday` in models.py, via
`datetime.strptime(value, "%d-%m-%Y")`) -/

/-- Numeric value of a digit character. -/
def digitVal (c : Char) : Nat := c.toNat - '0'.toNat

/-- CPython's regex for `%d`: `3[01]|[12]\d|0[1-9]|[1-9]` matched against
a whole dash-free segment: either two digits with value 1-31, or a
single digit 1-9. -/
def dayPat : List Char → Option Nat
  | [a] => if a.isDigit && !(a == '0') then some (digitVal a) else none
  | [a, b] =>
    if a.isDigit && b.isDigit && decide (1 ≤ 10 * digitVal a + digitVal b) &&
        decide (10 * digitVal a + digitVal b ≤ 31) then
      some (10 * digitVal a + digitVal b)
    else none
  | _ => none

/-- CPython's regex for `%m`: `1[0-2]|0[1-9]|[1-9]`: two digits with
value 1-12, or a single digit 1-9. -/
def monthPat : List Char → Option Nat
  | [a] => if a.isDigit && !(a == '0') then some (digitVal a) else none
  | [a, b] =>
    if a.isDigit && b.isDigit && decide (1 ≤ 10 * digitVal a + digitVal b) &&
        decide (10 * digitVal a + digitVal b ≤ 12) then
      some (10 * digitVal a + digitVal b)
    else none
  | _ => none

/-- CPython's regex for `%Y`: exactly four digits. -/
def yearPat : List Char → Option Nat
  | [a, b, c, d] =>
    if a.isDigit && b.isDigit && c.isDigit && d.isDigit then
      some (1000 * digitVal a + 100 * digitVal b + 10 * digitVal c + digitVal d)
    else none
  | _ => none

/-- Splits a character list on `'-'` (the separator of `%d-%m-%Y`);
always returns a nonempty list of dash-free segments. -/
def splitDash : List Char → List (List Char)
  | [] => [[]]
  | c :: rest =>
    match splitDash rest with
    | [] => [[]]
    | g :: gs => if c = '-' then [] :: g :: gs else (c :: g) :: gs

/-- Model of the `Birthday` constructor: `strptime(value, "%d-%m-%Y")`
followed by the `datetime.date` range check; returns the parsed
`(year, month, day)` or `none` for a raised `ValidationError`.  Since
the literal `-` separators cannot occur inside the `%d`/`%m`/`%Y`
sub-patterns, a full match is exactly a split into three segments each
matching its sub-pattern. -/
def parseBirthday (s : String) : Option PDate :=
  match splitDash s.data with
  | [dcs, mcs, ycs] =>
    match dayPat dcs, monthPat mcs, yearPat ycs with
    | some d, some m, some y => if validDate y m d then some (y, m, d) else none
    | _, _, _ => none
  | _ => none

/-! ### Records (`Record` in models.py) -/

/-- One contact: validated name, normalized phone values (in insertion
order), optional email, optional parsed birthday, notes, tags. -/
structure Rec where
  name : String
  phones : List String
  email : Option String
  birthday : Option PDate
  notes : List String
  tags : List String
  deriving DecidableEq, Repr

/-- A fresh record as built by `Record.__init__`. -/
def emptyRec (n : String) : Rec :=
  { name := n, phones := [], email := none, birthday := none, notes := [], tags := [] }

/-- Model of `Record.add_phone`: no-op if an equal-normalized phone is
already stored; otherwise validate and append (the inner duplicate
check mirrors the source even though it can never fire after
`find_phone`). -/
def recAddPhone (r : Rec) (phone : String) : Except Err Rec :=
  if Phone.normalize phone ∈ r.phones then .ok r
  else
    match phoneMk phone with
    | none => .error .validation
    | some v =>
      if v ∈ r.phones then .error .validation
      else .ok { r with phones := r.phones ++ [v] }

/-- Model of the loop in `Record.edit_phone`: find the first stored
phone equal to the normalized old value and replace it in place with
the freshly validated new phone; `Phone(new_phone)` is only constructed
once a match is found. -/
def editPhoneList (ps : List String) (normOld newRaw : String) : Except Err (List String) :=
  match ps with
  | [] => .error .phoneNotFound
  | p :: rest =>
    if p = normOld then
      match phoneMk newRaw with
      | some v => .ok (v :: rest)
      | none => .error .validation
    else
      match editPhoneList rest normOld newRaw with
      | .ok rest' => .ok (p :: rest')
      | .error e => .error e

/-- Model of `Record.edit_phone`. -/
def recEditPhone (r : Rec) (oldRaw newRaw : String) : Except Err Rec :=
  match editPhoneList r.phones (Phone.normalize oldRaw) newRaw with
  | .ok ps => .ok { r with phones := ps }
  | .error e => .error e

/-- Normalization used by tag operations (`strip().casefold()`,
modelled on ASCII). -/
def normalizeTag (s : String) : String := s.trim.toLower

/-- Model of `Record.add_note`. -/
def recAddNote (r : Rec) (note : String) : Rec :=
  if note = "" then r else { r with notes := r.notes ++ [note] }

/-- Model of `Record.add_tag`. -/
def recAddTag (r : Rec) (tag : String) : Rec :=
  if normalizeTag tag ≠ "" ∧ normalizeTag tag ∉ r.tags then
    { r with tags := r.tags ++ [normalizeTag tag] }
  else r

/-- Model of `Record.remove_tag` (`list.remove` drops the first
occurrence; a missing tag is a no-op). -/
def recRemoveTag (r : Rec) (tag : String) : Rec :=
  if normalizeTag tag ∈ r.tags then { r with tags := r.tags.erase (normalizeTag tag) } else r

/-! ### The address book (`AddressBook` in models.py) -/

/-- The book: Python's insertion-ordered dict from name to record,
modelled as an association list (service-reachable books never hold two
entries with the same key). -/
abbrev Book := List (String × Rec)

/-- Dict lookup (`AddressBook.find` / `data.get`). -/
def findRec : Book → String → Option Rec
  | [], _ => none
  | e :: t, n => if e.1 = n then some e.2 else findRec t n

/-- Replaces the record stored under key `n`. -/
def setRec (b : Book) (n : String) (r : Rec) : Book :=
  b.map fun e => if e.1 = n then (n, r) else e

/-- Dict assignment keyed by the record's name
(`AddressBook.add_record`): update in place if present, else append. -/
def addRecord (b : Book) (r : Rec) : Book :=
  if (findRec b r.name).isSome then setRec b r.name r else b ++ [(r.name, r)]

/-! ### The service layer (`AddressBookService`) -/

/-- Proposition checked by `_check_phone_unique`: every record is either
the excluded contact (exclusion is skipped when the excluded name is
falsy, i.e. empty) or does not hold the normalized phone.  When it
fails the service raises `DuplicatePhone`. -/
def PhoneFree (b : Book) (ex v : String) : Prop :=
  ∀ e ∈ b, (ex ≠ "" ∧ e.1 = ex) ∨ v ∉ e.2.phones

instance (b : Book) (ex v : String) : Decidable (PhoneFree b ex v) :=
  List.decidableBAll _ b

/-- Proposition checked by `_check_email_unique`. -/
def EmailFree (b : Book) (ex e : String) : Prop :=
  ∀ en ∈ b, (ex ≠ "" ∧ en.1 = ex) ∨ en.2.email ≠ some e

instance (b : Book) (ex e : String) : Decidable (EmailFree b ex e) :=
  List.decidableBAll _ b

/-- The contact-creation stage of `add_contact`: look up the name and
create (and store) a fresh record when absent.  A raised
`ValidationError` from `Name('')` aborts before anything is stored. -/
def acCreate (b : Book) (name : String) : Except Err (Book × List String) :=
  match findRec b name with
  | some _ => .ok (b, [])
  | none =>
    if name = "" then .error .validation
    else .ok (addRecord b (emptyRec name), ["Contact created"])

/-- The phone stage of `add_contact`: global uniqueness check (excluding
the contact itself), then add the phone unless the record already holds
it. -/
def acPhoneStep (b : Book) (name : String) (st : List String) :
    Option String → Book × Except Err (List String)
  | none => (b, .ok st)
  | some p =>
    if p = "" then (b, .ok st)
    else
      match findRec b name with
      | none => (b, .ok st)
      | some r =>
        if PhoneFree b name (Phone.normalize p) then
          if Phone.normalize p ∈ r.phones then (b, .ok st)
          else
            match recAddPhone r p with
            | .ok r' => (setRec b name r', .ok (st ++ ["Phone added"]))
            | .error e => (b, .error e)
        else (b, .error .duplicatePhone)

/-- The email stage of `add_contact`. -/
def acEmailStep (b : Book) (name : String) (st : List String) :
    Option String → Book × Except Err (List String)
  | none => (b, .ok st)
  | some em =>
    if em = "" then (b, .ok st)
    else
      match findRec b name with
      | none => (b, .ok st)
      | some r =>
        if EmailFree b name em then
          if r.email = some em then (b, .ok st)
          else if emailValid em then
            (setRec b name { r with email := some em }, .ok (st ++ ["Email added"]))
          else (b, .error .validation)
        else (b, .error .duplicateEmail)

/-- The birthday stage of `add_contact`. -/
def acBirthdayStep (b : Book) (name : String) (st : List String) :
    Option String → Book × Except Err (List String)
  | none => (b, .ok st)
  | some bd =>
    if bd = "" then (b, .ok st)
    else
      match findRec b name with
      | none => (b, .ok st)
      | some r =>
        match parseBirthday bd with
        | some dt => (setRec b name { r with birthday := some dt }, .ok (st ++ ["Birthday added"]))
        | none => (b, .error .validation)

/-- The optional-field stages of `add_contact`, run in source order;
an error stops further work but keeps every earlier commit. -/
def addContactSteps (b : Book) (name : String) (st : List String)
    (phone email birthday : Option String) : Book × Except Err (List String) :=
  match acPhoneStep b name st phone with
  | (b1, .error e) => (b1, .error e)
  | (b1, .ok st1) =>
    match acEmailStep b1 name st1 email with
    | (b2, .error e) => (b2, .error e)
    | (b2, .ok st2) =>
      match acBirthdayStep b2 name st2 birthday with
      | (b3, .error e) => (b3, .error e)
      | (b3, .ok st3) => (b3, .ok st3)

/-- Model of `AddressBookService.add_contact`. -/
def addContact (b : Book) (name : String) (phone email birthday : Option String) :
    Book × Except Err (List String) :=
  match acCreate b name with
  | .error e => (b, .error e)
  | .ok (b1, st) => addContactSteps b1 name st phone email birthday

/-- Model of `AddressBookService.change_phone`. -/
def changePhone (b : Book) (name oldRaw newRaw : String) : Book × Except Err Unit :=
  match findRec b name with
  | none => (b, .error .contactNotFound)
  | some r =>
    if PhoneFree b name (Phone.normalize newRaw) then
      match recEditPhone r oldRaw newRaw with
      | .ok r' => (setRec b name r', .ok ())
      | .error e => (b, .error e)
    else (b, .error .duplicatePhone)

/-- Model of `AddressBookService.add_phone_to_contact`. -/
def addPhoneToContact (b : Book) (name phone : String) : Book × Except Err Unit :=
  match findRec b name with
  | none => (b, .error .contactNotFound)
  | some r =>
    if PhoneFree b name (Phone.normalize phone) then
      if Phone.normalize phone ∈ r.phones then (b, .error .duplicatePhone)
      else
        match recAddPhone r phone with
        | .ok r' => (setRec b name r', .ok ())
        | .error e => (b, .error e)
    else (b, .error .duplicatePhone)

/-- Model of `AddressBookService.delete_contact` (via
`AddressBook.delete`). -/
def deleteContact (b : Book) (name : String) : Book × Except Err Unit :=
  if (findRec b name).isSome then (b.filter (fun e => e.1 != name), .ok ())
  else (b, .error .contactNotFound)

/-- Model of `AddressBookService.add_email`. -/
def svcAddEmail (b : Book) (name em : String) : Book × Except Err Unit :=
  match findRec b name with
  | none => (b, .error .contactNotFound)
  | some r =>
    if EmailFree b name em then
      if emailValid em then (setRec b name { r with email := some em }, .ok ())
      else (b, .error .validation)
    else (b, .error .duplicateEmail)

/-- Model of `AddressBookService.add_birthday`. -/
def svcAddBirthday (b : Book) (name bd : String) : Book × Except Err Unit :=
  match findRec b name with
  | none => (b, .error .contactNotFound)
  | some r =>
    match parseBirthday bd with
    | some dt => (setRec b name { r with birthday := some dt }, .ok ())
    | none => (b, .error .validation)

/-- Model of `AddressBookService.add_note`. -/
def svcAddNote (b : Book) (name note : String) : Book × Except Err Unit :=
  match findRec b name with
  | none => (b, .error .contactNotFound)
  | some r => (setRec b name (recAddNote r note), .ok ())

/-- Model of `AddressBookService.edit_note` (non-negative indices; a
negative CLI index fails the same range check). -/
def svcEditNote (b : Book) (name : String) (i : Nat) (t : String) : Book × Except Err Unit :=
  match findRec b name with
  | none => (b, .error .contactNotFound)
  | some r =>
    if i < r.notes.length then (setRec b name { r with notes := r.notes.set i t }, .ok ())
    else (b, .error .noteNotFound)

/-- Model of `AddressBookService.delete_note`. -/
def svcDeleteNote (b : Book) (name : String) (i : Nat) : Book × Except Err Unit :=
  match findRec b name with
  | none => (b, .error .contactNotFound)
  | some r =>
    if i < r.notes.length then (setRec b name { r with notes := r.notes.eraseIdx i }, .ok ())
    else (b, .error .noteNotFound)

/-- Model of `AddressBookService.add_tag`. -/
def svcAddTag (b : Book) (name tag : String) : Book × Except Err Unit :=
  match findRec b name with
  | none => (b, .error .contactNotFound)
  | some r => (setRec b name (recAddTag r tag), .ok ())

/-- Model of `AddressBookService.remove_tag`. -/
def svcRemoveTag (b : Book) (name tag : String) : Book × Except Err Unit :=
  match findRec b name with
  | none => (b, .error .contactNotFound)
  | some r => (setRec b name (recRemoveTag r tag), .ok ())

/-! ### Birthday countdown (`Record.days_to_birthday`) -/

/-- Model of `bdate.replace(year=y)` with the `except ValueError`
fallback `bdate.replace(year=y, day=bdate.day - 1)`; `none` models an
uncaught `ValueError` from the fallback itself. -/
def replaceYearFallback (bm bd y : Nat) : Option PDate :=
  if validDate y bm bd then some (y, bm, bd)
  else if validDate y bm (bd - 1) then some (y, bm, bd - 1)
  else none

/-- The date the code compares against `today` (total version, defined
whenever the fallback succeeds). -/
def thisYearOcc (bm bd y : Nat) : PDate :=
  if validDate y bm bd then (y, bm, bd) else (y, bm, bd - 1)

/-- Model of `Record.days_to_birthday` for a record whose birthday has
month `bm` and day `bd`, evaluated at reference date `today`;
`none` models an uncaught `ValueError`. -/
def daysToBirthday (bm bd : Nat) (today : PDate) : Option Int :=
  match replaceYearFallback bm bd today.1 with
  | none => none
  | some a =>
    if dateLt a today then
      match replaceYearFallback bm bd (today.1 + 1) with
      | none => none
      | some b => some ((toOrdinal b : Int) - (toOrdinal today : Int))
    else some ((toOrdinal a : Int) - (toOrdinal today : Int))

/-! ### Reachable service states -/

/-- Book states reachable from the empty book through
`AddressBookService` operations alone (each constructor is one public
mutating method; read-only queries do not change the state). -/
inductive Reach : Book → Prop
  | empty : Reach []
  | addContact {b} (name : String) (phone email birthday : Option String) :
      Reach b → Reach (addContact b name phone email birthday).1
  | changePhone {b} (name oldRaw newRaw : String) :
      Reach b → Reach (changePhone b name oldRaw newRaw).1
  | addPhoneToContact {b} (name phone : String) :
      Reach b → Reach (addPhoneToContact b name phone).1
  | deleteContact {b} (name : String) :
      Reach b → Reach (deleteContact b name).1
  | addEmail {b} (name em : String) :
      Reach b → Reach (svcAddEmail b name em).1
  | addBirthday {b} (name bd : String) :
      Reach b → Reach (svcAddBirthday b name bd).1
  | addNote {b} (name note : String) :
      Reach b → Reach (svcAddNote b name note).1
  | editNote {b} (name : String) (i : Nat) (t : String) :
      Reach b → Reach (svcEditNote b name i t).1
  | deleteNote {b} (name : String) (i : Nat) :
      Reach b → Reach (svcDeleteNote b name i).1
  | addTag {b} (name tag : String) :
      Reach b → Reach (svcAddTag b name tag).1
  | removeTag {b} (name tag : String) :
      Reach b → Reach (svcRemoveTag b name tag).1
  | deleteAll {b} : Reach b → Reach []

/-- Cross-record phone uniqueness: two entries stored under different
names never share a normalized phone value. -/
def CrossPhones (b : Book) : Prop :=
  ∀ p₁ ∈ b, ∀ p₂ ∈ b, p₁.1 ≠ p₂.1 →
    ∀ v, v ∈ (Prod.snd p₁).phones → v ∉ (Prod.snd p₂).phones

/-- Cross-record email uniqueness. -/
def CrossEmails (b : Book) : Prop :=
  ∀ p₁ ∈ b, ∀ p₂ ∈ b, p₁.1 ≠ p₂.1 →
    ∀ em, (Prod.snd p₁).email = some em → (Prod.snd p₂).email ≠ some em

/-! ### Specification-side predicates for birthday grammar claims -/

/-- Numeric value of a digit segment. -/
def segNat (cs : List Char) : Nat :=
  cs.foldl (fun n c => 10 * n + digitVal c) 0

/-- The grammar the Birthday validator actually accepts (stated
declaratively, to be compared with `parseBirthday`): a one- or
two-digit day with value 1-31, a hyphen, a one- or two-digit month
with value 1-12, a hyphen, a four-digit year, the whole denoting a
possible calendar date. -/
def BirthdayGrammar (s : String) : Prop :=
  ∃ dcs mcs ycs : List Char,
    s.data = dcs ++ '-' :: (mcs ++ '-' :: ycs) ∧
    dcs.all Char.isDigit = true ∧ mcs.all Char.isDigit = true ∧
    ycs.all Char.isDigit = true ∧
    (dcs.length = 1 ∨ dcs.length = 2) ∧ (mcs.length = 1 ∨ mcs.length = 2) ∧
    ycs.length = 4 ∧
    1 ≤ segNat dcs ∧ segNat dcs ≤ 31 ∧ 1 ≤ segNat mcs ∧ segNat mcs ≤ 12 ∧
    validDate (segNat ycs) (segNat mcs) (segNat dcs) = true

/-- The grammar claimed by the specification sentence: exactly
two-digit day, two-digit month, four-digit year denoting a possible
calendar date. -/
def StrictBirthdayGrammar (s : String) : Prop :=
  ∃ dcs mcs ycs : List Char,
    s.data = dcs ++ '-' :: (mcs ++ '-' :: ycs) ∧
    dcs.all Char.isDigit = true ∧ mcs.all Char.isDigit = true ∧
    ycs.all Char.isDigit = true ∧
    dcs.length = 2 ∧ mcs.length = 2 ∧ ycs.length = 4 ∧
    validDate (segNat ycs) (segNat mcs) (segNat dcs) = true

/-- Projection of the error of an outcome, for stating results. -/
def errOf {α : Type} : Except Err α → Option Err
  | .error e => some e
  | .ok _ => none

/-- Joins segments with `'-'` separators (left inverse of
`splitDash`, for stating the grammar equivalence). -/
def joinDash : List (List Char) → List Char
  | [] => []
  | [p] => p
  | p :: ps => p ++ '-' :: joinDash ps

/-- Concrete fixture: Ann with one phone. -/
def annRec1 : Rec :=
  { name := "Ann", phones := ["+380501234567"], email := none,
    birthday := none, notes := [], tags := [] }

/-- Concrete fixture: Bob with one phone. -/
def bobRec1 : Rec :=
  { name := "Bob", phones := ["+380507654321"], email := none,
    birthday := none, notes := [], tags := [] }

/-- Concrete fixture: Bob with an email. -/
def bobRecEmail : Rec :=
  { name := "Bob", phones := [], email := some "b@x.co",
    birthday := none, notes := [], tags := [] }

/-! # Theorems -/

/-! ### Helper lemmas: phone normalization -/

theorem filter_digit_idem (l : List Char) :
    (l.filter Char.isDigit).filter Char.isDigit = l.filter Char.isDigit := by
  induction l with
  | nil => rfl
  | cons c t ih =>
    by_cases hc : Char.isDigit c = true
    · simp [List.filter_cons, hc, ih]
    · simp [List.filter_cons, hc, ih]

theorem normList_step (cs : List Char) (h : ¬ cs = []) :
    normList cs = if (cs.filter Char.isDigit).length = 10
      then '+' :: '3' :: '8' :: cs.filter Char.isDigit
      else if (cs.filter Char.isDigit).length = 12
      then '+' :: cs.filter Char.isDigit
      else '+' :: cs.filter Char.isDigit := by
  unfold normList
  rw [if_neg h]

theorem normList_idem (cs : List Char) : normList (normList cs) = normList cs := by
  by_cases h : cs = []
  · subst h; rfl
  · have hfd := filter_digit_idem cs
    have hplus : Char.isDigit '+' = false := rfl
    have h3 : Char.isDigit '3' = true := rfl
    have h8 : Char.isDigit '8' = true := rfl
    have hstep := normList_step cs h
    by_cases h10 : (cs.filter Char.isDigit).length = 10
    · have hA : normList cs = '+' :: '3' :: '8' :: cs.filter Char.isDigit := by
        rw [hstep, if_pos h10]
      rw [hA]
      have hf : (('+' :: '3' :: '8' :: cs.filter Char.isDigit).filter Char.isDigit)
          = '3' :: '8' :: cs.filter Char.isDigit := by
        simp [List.filter_cons, hplus, h3, h8, hfd]
      have hl : ('3' :: '8' :: cs.filter Char.isDigit).length = 12 := by
        simp [h10]
      rw [normList_step _ (List.cons_ne_nil _ _), hf]
      rw [if_neg (by simp [hl]), if_pos hl]
    · have hA : normList cs = '+' :: cs.filter Char.isDigit := by
        rw [hstep, if_neg h10]
        by_cases h12 : (cs.filter Char.isDigit).length = 12
        · rw [if_pos h12]
        · rw [if_neg h12]
      rw [hA]
      have hf : ('+' :: cs.filter Char.isDigit).filter Char.isDigit
          = cs.filter Char.isDigit := by
        simp [List.filter_cons, hplus, hfd]
      rw [normList_step _ (List.cons_ne_nil _ _), hf, if_neg h10]
      by_cases h12 : (cs.filter Char.isDigit).length = 12
      · rw [if_pos h12]
      · rw [if_neg h12]

/-- Claim C9: phone normalization is idempotent: for every input string
`s`, normalizing `normalize s` again yields `normalize s` unchanged. -/
theorem c9_phone_normalize_idempotent (s : String) :
    Phone.normalize (Phone.normalize s) = Phone.normalize s :=
  congrArg String.mk (normList_idem s.data)

/-! ### Claim C10: edit_phone checks presence before validating -/

theorem editPhoneList_all_ne (ps : List String) (normOld newRaw : String)
    (h : ∀ p ∈ ps, p ≠ normOld) :
    editPhoneList ps normOld newRaw = .error .phoneNotFound := by
  induction ps with
  | nil => rfl
  | cons p rest ih =>
    unfold editPhoneList
    rw [if_neg (h p (List.mem_cons_self p rest))]
    rw [ih (fun q hq => h q (List.mem_cons_of_mem p hq))]

/-- Claim C10: if no stored phone of a record normalizes to
`normalize old`, then `Record.edit_phone(old, new)` raises
`PhoneNotFound` (leaving the record unchanged) for **every** `new`,
malformed ones included: the new value is validated only after a match
for the old one is found, so `PhoneNotFound` takes priority over
`ValidationError`. -/
theorem c10_edit_phone_not_found_priority (r : Rec) (oldRaw newRaw : String)
    (h : ∀ p ∈ r.phones, p ≠ Phone.normalize oldRaw) :
    recEditPhone r oldRaw newRaw = .error .phoneNotFound := by
  unfold recEditPhone
  rw [editPhoneList_all_ne r.phones (Phone.normalize oldRaw) newRaw h]

/-- Witness for C10: a record holding only `+380501234567`, an absent
old phone and a malformed new phone. -/
theorem c10_witness :
    recEditPhone
      { name := "Ann", phones := ["+380501234567"], email := none,
        birthday := none, notes := [], tags := [] }
      "0671112233" "garbage" = .error .phoneNotFound :=
  c10_edit_phone_not_found_priority _ _ "garbage" (by decide)

/-! ### Claim C1: change_phone can duplicate a phone inside one record -/

/-- Claim C1 (violated by the code): starting from the reachable book
where Ann holds `+380501234567` and `+380507654321`,
`change_phone("Ann", "0501234567", "0507654321")` succeeds and leaves
Ann's record holding the normalized value `+380507654321` twice: the
per-record uniqueness invariant is not preserved, because
`_check_phone_unique` excludes Ann's own record and
`Record.edit_phone` never checks the record's other slots. -/
theorem c1_change_phone_breaks_record_uniqueness :
    (changePhone
        ((addPhoneToContact
            ((addContact [] "Ann" (some "0501234567") none none).1)
            "Ann" "0507654321").1)
        "Ann" "0501234567" "0507654321").2 = Except.ok () ∧
    ((findRec
        (changePhone
          ((addPhoneToContact
              ((addContact [] "Ann" (some "0501234567") none none).1)
              "Ann" "0507654321").1)
          "Ann" "0501234567" "0507654321").1 "Ann").map Rec.phones)
      = some ["+380507654321", "+380507654321"] :=
  ⟨rfl, rfl⟩

/-! ### Claim C7: service-level duplicate handling is strict -/

/-- Claim C7: (a) `Record.add_phone` with any raw input normalizing to a
value the record already holds is a silent no-op; (b) the service's
`add_phone_to_contact` on the same contact with such an input instead
fails with `DuplicatePhone`; (c) it fails with `ContactNotFound` when
the name is absent; (d) it fails with `DuplicatePhone` when the value
belongs to a different contact. -/
theorem c7_add_phone_strictness :
    (∀ (r : Rec) (raw : String), Phone.normalize raw ∈ r.phones →
      recAddPhone r raw = .ok r) ∧
    (∀ (b : Book) (name raw : String) (r : Rec), findRec b name = some r →
      Phone.normalize raw ∈ r.phones →
      addPhoneToContact b name raw = (b, .error .duplicatePhone)) ∧
    (∀ (b : Book) (name raw : String), findRec b name = none →
      addPhoneToContact b name raw = (b, .error .contactNotFound)) ∧
    (∀ (b : Book) (name raw : String) (r : Rec), findRec b name = some r →
      (∃ e ∈ b, e.1 ≠ name ∧ Phone.normalize raw ∈ (Prod.snd e).phones) →
      (addPhoneToContact b name raw).2 = .error .duplicatePhone) := by
  refine ⟨?_, ?_, ?_, ?_⟩
  · intro r raw h
    unfold recAddPhone
    rw [if_pos h]
  · intro b name raw r hfind hmem
    simp only [addPhoneToContact, hfind]
    by_cases hfree : PhoneFree b name (Phone.normalize raw)
    · rw [if_pos hfree, if_pos hmem]
    · rw [if_neg hfree]
  · intro b name raw hfind
    simp only [addPhoneToContact, hfind]
  · intro b name raw r hfind hother
    have hnfree : ¬ PhoneFree b name (Phone.normalize raw) := by
      rcases hother with ⟨e, he, hne, hin⟩
      intro hall
      rcases hall e he with ⟨_, heq⟩ | hnot
      · exact hne heq
      · exact hnot hin
    simp only [addPhoneToContact, hfind, if_neg hnfree]

/-- Witness for C7: instantiates all four parts on a two-contact book
where Ann holds `+380501234567` and Bob holds `+380507654321`. -/
theorem c7_witness :
    (recAddPhone annRec1 "0501234567" = .ok annRec1) ∧
    (addPhoneToContact [("Ann", annRec1)] "Ann" "0501234567"
      = ([("Ann", annRec1)], .error .duplicatePhone)) ∧
    (addPhoneToContact [] "Ann" "0501234567" = ([], .error .contactNotFound)) ∧
    ((addPhoneToContact [("Ann", annRec1), ("Bob", bobRec1)] "Ann" "0507654321").2
      = .error .duplicatePhone) :=
  ⟨c7_add_phone_strictness.1 annRec1 _ (by decide),
   c7_add_phone_strictness.2.1 _ _ _ annRec1 rfl (by decide),
   c7_add_phone_strictness.2.2.1 _ _ _ rfl,
   c7_add_phone_strictness.2.2.2 _ "Ann" _ annRec1 rfl
     ⟨("Bob", bobRec1), by decide, by decide, by decide⟩⟩

/-! ### Book lookup lemmas -/

theorem findRec_append_of_none (b l : Book) (n : String) (h : findRec b n = none) :
    findRec (b ++ l) n = findRec l n := by
  induction b with
  | nil => rfl
  | cons e t ih =>
    simp only [findRec] at h
    by_cases he : e.1 = n
    · rw [if_pos he] at h
      exact absurd h (by simp)
    · rw [if_neg he] at h
      simp only [List.cons_append, findRec, if_neg he]
      exact ih h

theorem findRec_setRec_self (b : Book) (n : String) (r' : Rec) :
    findRec (setRec b n r') n = (findRec b n).map (fun _ => r') := by
  induction b with
  | nil => rfl
  | cons e t ih =>
    by_cases he : e.1 = n
    · simp [setRec, findRec, he]
    · simp [setRec, findRec, he] at ih ⊢
      exact ih

/-! ### Claim C6: the addContact("Ann","0501234567") scenario -/

/-- Counterexample to C6 as stated: the book obtained by
`add_contact("Bob", "0501234567")` does not contain "Ann", yet
`add_contact("Ann", "0501234567")` raises `DuplicatePhone` instead of
succeeding, because Bob already holds the normalized value. -/
theorem c6_counterexample :
    findRec ((addContact [] "Bob" (some "0501234567") none none).1) "Ann" = none ∧
    (addContact ((addContact [] "Bob" (some "0501234567") none none).1)
        "Ann" (some "0501234567") none none).2 = .error .duplicatePhone :=
  ⟨rfl, rfl⟩

/-- Claim C6 (amended): starting from a book not containing "Ann" *and
in which no record holds a phone normalizing to `+380501234567`*,
`add_contact("Ann", "0501234567")` succeeds, returns the status list
`["Contact created", "Phone added"]` in that order, and afterwards the
record stored under "Ann" has exactly one phone, stored as
`+380501234567`. -/
theorem c6_amended (b : Book)
    (h1 : findRec b "Ann" = none)
    (h2 : ∀ e ∈ b, "+380501234567" ∉ (Prod.snd e).phones) :
    (addContact b "Ann" (some "0501234567") none none).2
        = .ok ["Contact created", "Phone added"] ∧
    ∃ r, findRec (addContact b "Ann" (some "0501234567") none none).1 "Ann" = some r ∧
      r.phones = ["+380501234567"] := by
  have hAnn : ("Ann" : String) ≠ "" := by decide
  have hv : Phone.normalize "0501234567" = "+380501234567" := rfl
  have hcreate : acCreate b "Ann" = .ok (b ++ [("Ann", emptyRec "Ann")], ["Contact created"]) := by
    simp only [acCreate, h1, if_neg hAnn, addRecord, emptyRec]
    rfl
  have hb1find : findRec (b ++ [("Ann", emptyRec "Ann")]) "Ann" = some (emptyRec "Ann") := by
    rw [findRec_append_of_none b _ "Ann" h1]
    rfl
  have hfree : PhoneFree (b ++ [("Ann", emptyRec "Ann")]) "Ann" (Phone.normalize "0501234567") := by
    intro e he
    rcases List.mem_append.1 he with hb | hone
    · right
      rw [hv]
      exact h2 e hb
    · left
      rw [List.mem_singleton.1 hone]
      exact ⟨hAnn, rfl⟩
  have hadd : recAddPhone (emptyRec "Ann") "0501234567"
      = .ok { name := "Ann", phones := ["+380501234567"], email := none,
              birthday := none, notes := [], tags := [] } := rfl
  have hstep : acPhoneStep (b ++ [("Ann", emptyRec "Ann")]) "Ann" ["Contact created"]
      (some "0501234567")
      = (setRec (b ++ [("Ann", emptyRec "Ann")]) "Ann"
          { name := "Ann", phones := ["+380501234567"], email := none,
            birthday := none, notes := [], tags := [] },
         .ok ["Contact created", "Phone added"]) := by
    simp only [acPhoneStep, hb1find]
    rw [if_neg (by decide : ¬("0501234567" : String) = "")]
    rw [if_pos hfree]
    rw [if_neg (by decide : ¬ Phone.normalize "0501234567" ∈ (emptyRec "Ann").phones)]
    rw [hadd]
    rfl
  have hfinal : addContact b "Ann" (some "0501234567") none none
      = (setRec (b ++ [("Ann", emptyRec "Ann")]) "Ann"
          { name := "Ann", phones := ["+380501234567"], email := none,
            birthday := none, notes := [], tags := [] },
         .ok ["Contact created", "Phone added"]) := by
    simp only [addContact, hcreate, addContactSteps, hstep, acEmailStep, acBirthdayStep]
  refine ⟨by rw [hfinal], ?_⟩
  refine ⟨{ name := "Ann", phones := ["+380501234567"], email := none,
            birthday := none, notes := [], tags := [] }, ?_, rfl⟩
  rw [hfinal]
  show findRec (setRec (b ++ [("Ann", emptyRec "Ann")]) "Ann" _) "Ann" = _
  rw [findRec_setRec_self, hb1find]
  rfl

/-- Witness for C6 (amended): the empty book satisfies both
hypotheses. -/
theorem c6_witness :
    (addContact [] "Ann" (some "0501234567") none none).2
        = .ok ["Contact created", "Phone added"] ∧
    ∃ r, findRec (addContact [] "Ann" (some "0501234567") none none).1 "Ann" = some r ∧
      r.phones = ["+380501234567"] :=
  c6_amended [] rfl (fun e he => absurd he (List.not_mem_nil e))

/-! ### Claim C8: add_contact commits the phone before the email check -/

theorem phoneMk_eq_normalize (s v : String) (h : phoneMk s = some v) :
    v = Phone.normalize s := by
  unfold phoneMk at h
  by_cases hv : phoneValidate (Phone.normalize s) = true
  · rw [if_pos hv] at h
    exact (Option.some.inj h).symm
  · rw [if_neg hv] at h
    cases h

theorem recAddPhone_appends (r r' : Rec) (p : String)
    (hnm : Phone.normalize p ∉ r.phones) (h : recAddPhone r p = .ok r') :
    r'.phones = r.phones ++ [Phone.normalize p] ∧ r'.email = r.email := by
  unfold recAddPhone at h
  rw [if_neg hnm] at h
  cases hpm : phoneMk p with
  | none => rw [hpm] at h; cases h
  | some v =>
    simp only [hpm] at h
    have hv := phoneMk_eq_normalize p v hpm
    subst hv
    rw [if_neg hnm] at h
    injection h with h
    subst h
    exact ⟨rfl, rfl⟩

theorem acPhoneStep_added (b1 : Book) (name : String) (st : List String) (p : String)
    (b2 : Book) (hp : acPhoneStep b1 name st (some p) = (b2, .ok (st ++ ["Phone added"]))) :
    ∃ r r', findRec b1 name = some r ∧ recAddPhone r p = .ok r' ∧
      b2 = setRec b1 name r' ∧ Phone.normalize p ∈ r'.phones := by
  simp only [acPhoneStep] at hp
  by_cases hpe : p = ""
  · rw [if_pos hpe, Prod.mk.injEq] at hp
    exact absurd hp.2 (by simp)
  · rw [if_neg hpe] at hp
    cases hfind : findRec b1 name with
    | none =>
      simp only [hfind, Prod.mk.injEq] at hp
      exact absurd hp.2 (by simp)
    | some r =>
      simp only [hfind] at hp
      by_cases hfree : PhoneFree b1 name (Phone.normalize p)
      · rw [if_pos hfree] at hp
        by_cases hmem : Phone.normalize p ∈ r.phones
        · rw [if_pos hmem, Prod.mk.injEq] at hp
          exact absurd hp.2 (by simp)
        · rw [if_neg hmem] at hp
          cases hadd : recAddPhone r p with
          | error e =>
            simp only [hadd, Prod.mk.injEq] at hp
            exact absurd hp.2 (by simp)
          | ok r' =>
            simp only [hadd, Prod.mk.injEq] at hp
            refine ⟨r, r', rfl, hadd, hp.1.symm, ?_⟩
            rw [(recAddPhone_appends r r' p hmem hadd).1]
            exact List.mem_append_right _ (List.mem_singleton_self _)
      · rw [if_neg hfree, Prod.mk.injEq] at hp
        exact absurd hp.2 (by simp)

theorem acEmailStep_dup (b2 : Book) (name : String) (st : List String) (em : String)
    (r : Rec) (hem : ¬ em = "") (hfind : findRec b2 name = some r)
    (hnfree : ¬ EmailFree b2 name em) :
    acEmailStep b2 name st (some em) = (b2, .error .duplicateEmail) := by
  simp only [acEmailStep, hfind, if_neg hem, if_neg hnfree]

/-- Claim C8: `add_contact` is not atomic across its optional fields:
whenever the phone stage succeeds and actually adds a phone, and the
email stage then fails because the email already belongs to a
different contact, the whole call reports `DuplicateEmail`, yet the
phone added earlier in the same call remains committed in the book. -/
theorem c8_add_contact_no_rollback (b : Book) (name p em : String) (bd : Option String)
    (b1 b2 : Book) (st1 : List String)
    (hc : acCreate b name = .ok (b1, st1))
    (hp : acPhoneStep b1 name st1 (some p) = (b2, .ok (st1 ++ ["Phone added"])))
    (hem : ¬ em = "")
    (hdup : ∃ e ∈ b2, Prod.fst e ≠ name ∧ (Prod.snd e).email = some em) :
    (addContact b name (some p) (some em) bd).2 = .error .duplicateEmail ∧
    ∃ r, findRec (addContact b name (some p) (some em) bd).1 name = some r ∧
      Phone.normalize p ∈ r.phones := by
  obtain ⟨r, r', hfind, hadd, hb2, hmem⟩ := acPhoneStep_added b1 name st1 p b2 hp
  have hfind2 : findRec b2 name = some r' := by
    rw [hb2, findRec_setRec_self, hfind]
    rfl
  have hnfree : ¬ EmailFree b2 name em := by
    rcases hdup with ⟨e, he, hne, hsome⟩
    intro hall
    rcases hall e he with ⟨_, heq⟩ | hno
    · exact hne heq
    · exact hno hsome
  have hes := acEmailStep_dup b2 name (st1 ++ ["Phone added"]) em r' hem hfind2 hnfree
  have hfinal : addContact b name (some p) (some em) bd = (b2, .error .duplicateEmail) := by
    simp only [addContact, hc, addContactSteps, hp, hes]
  rw [hfinal]
  exact ⟨rfl, r', hfind2, hmem⟩

/-- Witness for C8: Bob already owns the email `b@x.co`; adding Ann
with a fresh phone and that email fails with `DuplicateEmail` while
Ann keeps the committed phone. -/
theorem c8_witness :
    (addContact [("Bob", bobRecEmail)] "Ann" (some "0501234567") (some "b@x.co") none).2
        = .error .duplicateEmail ∧
    ∃ r, findRec (addContact [("Bob", bobRecEmail)] "Ann" (some "0501234567")
        (some "b@x.co") none).1 "Ann" = some r ∧
      Phone.normalize "0501234567" ∈ r.phones :=
  c8_add_contact_no_rollback [("Bob", bobRecEmail)] "Ann" "0501234567" "b@x.co" none
    ([("Bob", bobRecEmail)] ++ [("Ann", emptyRec "Ann")])
    (setRec ([("Bob", bobRecEmail)] ++ [("Ann", emptyRec "Ann")]) "Ann" annRec1)
    ["Contact created"] rfl rfl (by decide)
    ⟨("Bob", bobRecEmail), by decide, by decide, by decide⟩

/-! ### Splitting on dashes -/

theorem splitDash_ne_nil (cs : List Char) : splitDash cs ≠ [] := by
  induction cs with
  | nil => simp [splitDash]
  | cons c t ih =>
    unfold splitDash
    cases h : splitDash t with
    | nil => simp
    | cons g gs => by_cases hc : c = '-' <;> simp [hc]

theorem splitDash_cons_dash (t : List Char) : splitDash ('-' :: t) = [] :: splitDash t := by
  cases h : splitDash t with
  | nil => exact absurd h (splitDash_ne_nil t)
  | cons g gs => simp [splitDash, h]

theorem splitDash_append_dash (a t : List Char) (ha : '-' ∉ a) :
    splitDash (a ++ '-' :: t) = a :: splitDash t := by
  induction a with
  | nil => exact splitDash_cons_dash t
  | cons c a' ih =>
    have hc : ¬ c = '-' := fun h => ha (h ▸ List.mem_cons_self c a')
    have ha' : '-' ∉ a' := fun h => ha (List.mem_cons_of_mem c h)
    simp only [List.cons_append, splitDash, List.append_eq, ih ha', if_neg hc]

theorem splitDash_no_dash (cs : List Char) (h : '-' ∉ cs) : splitDash cs = [cs] := by
  induction cs with
  | nil => rfl
  | cons c t ih =>
    have hc : ¬ c = '-' := fun he => h (he ▸ List.mem_cons_self c t)
    have ht : '-' ∉ t := fun hm => h (List.mem_cons_of_mem c hm)
    simp only [splitDash, ih ht, if_neg hc]

theorem joinDash_splitDash (cs : List Char) : joinDash (splitDash cs) = cs := by
  induction cs with
  | nil => rfl
  | cons c t ih =>
    by_cases hc : c = '-'
    · subst hc
      rw [splitDash_cons_dash]
      cases h : splitDash t with
      | nil => exact absurd h (splitDash_ne_nil t)
      | cons g gs =>
        rw [h] at ih
        show joinDash ([] :: g :: gs) = '-' :: t
        rw [show joinDash ([] :: g :: gs) = [] ++ '-' :: joinDash (g :: gs) from rfl]
        rw [List.nil_append, ih]
    · cases h : splitDash t with
      | nil => exact absurd h (splitDash_ne_nil t)
      | cons g gs =>
        rw [h] at ih
        simp only [splitDash, h, if_neg hc]
        cases gs with
        | nil =>
          show joinDash [c :: g] = c :: t
          rw [show joinDash [c :: g] = c :: g from rfl]
          rw [show joinDash [g] = g from rfl] at ih
          rw [ih]
        | cons g2 gs2 =>
          show joinDash ((c :: g) :: g2 :: gs2) = c :: t
          rw [show joinDash ((c :: g) :: g2 :: gs2)
              = (c :: g) ++ '-' :: joinDash (g2 :: gs2) from rfl]
          rw [show joinDash (g :: g2 :: gs2) = g ++ '-' :: joinDash (g2 :: gs2) from rfl] at ih
          rw [List.cons_append, ih]

/-! ### Digit segment lemmas -/

theorem isDigit_toNat_facts (a : Char) (h : a.isDigit = true) :
    48 ≤ a.toNat ∧ a.toNat ≤ 57 := by
  simp only [Char.isDigit, ge_iff_le, Bool.and_eq_true, decide_eq_true_eq] at h
  obtain ⟨h1, h2⟩ := h
  rw [UInt32.le_def, BitVec.le_def] at h1 h2
  exact ⟨h1, h2⟩

theorem char_eq_zero_iff_toNat (a : Char) : a = '0' ↔ a.toNat = 48 := by
  constructor
  · rintro rfl
    rfl
  · intro h
    apply Char.ext
    apply UInt32.ext
    exact h

theorem no_dash_of_all_digit (cs : List Char) (h : cs.all Char.isDigit = true) :
    '-' ∉ cs := by
  intro hm
  exact absurd (List.all_eq_true.1 h _ hm) (by decide)

theorem segNat_one (a : Char) : segNat [a] = digitVal a := by
  simp [segNat]

theorem segNat_two (a b : Char) : segNat [a, b] = 10 * digitVal a + digitVal b := by
  simp [segNat]

theorem segNat_four (a b c d : Char) :
    segNat [a, b, c, d] = 1000 * digitVal a + 100 * digitVal b + 10 * digitVal c + digitVal d := by
  simp [segNat]
  ring

theorem dayPat_iff (cs : List Char) (d : Nat) :
    dayPat cs = some d ↔
      (cs.all Char.isDigit = true ∧ (cs.length = 1 ∨ cs.length = 2) ∧
        1 ≤ segNat cs ∧ segNat cs ≤ 31 ∧ d = segNat cs) := by
  match cs with
  | [] => simp [dayPat]
  | [a] =>
    rw [segNat_one]
    constructor
    · intro h
      simp only [dayPat] at h
      by_cases hc : (a.isDigit && !(a == '0')) = true
      · rw [if_pos hc] at h
        rw [Bool.and_eq_true, Bool.not_eq_true'] at hc
        obtain ⟨h1, h2⟩ := hc
        have hf := isDigit_toNat_facts a h1
        have hne : ¬ a.toNat = 48 := by
          intro he
          rw [(char_eq_zero_iff_toNat a).2 he] at h2
          exact absurd h2 (by decide)
        have h0 : '0'.toNat = 48 := rfl
        refine ⟨by simp [h1], Or.inl rfl, ?_, ?_, ?_⟩
        · unfold digitVal
          rw [h0]
          omega
        · unfold digitVal
          rw [h0]
          omega
        · exact (Option.some.inj h).symm
      · rw [if_neg hc] at h
        cases h
    · rintro ⟨hall, _, h1, _, hd⟩
      have h1d : a.isDigit = true := by simpa using hall
      have hz : (a == '0') = false := by
        rw [beq_eq_false_iff_ne]
        intro he
        rw [he] at h1
        exact absurd h1 (by decide)
      simp only [dayPat, h1d, hz, Bool.not_false, Bool.and_self, if_pos]
      rw [hd]
  | [a, b] =>
    rw [segNat_two]
    constructor
    · intro h
      simp only [dayPat] at h
      by_cases hc : (a.isDigit && b.isDigit && decide (1 ≤ 10 * digitVal a + digitVal b) &&
          decide (10 * digitVal a + digitVal b ≤ 31)) = true
      · rw [if_pos hc] at h
        simp only [Bool.and_eq_true, decide_eq_true_eq] at hc
        obtain ⟨⟨⟨h1, h2⟩, h3⟩, h4⟩ := hc
        refine ⟨by simp [h1, h2], Or.inr rfl, h3, h4, (Option.some.inj h).symm⟩
      · rw [if_neg hc] at h
        cases h
    · rintro ⟨hall, _, h1, h31, hd⟩
      simp only [List.all_cons, List.all_nil, Bool.and_true, Bool.and_eq_true] at hall
      obtain ⟨ha, hb⟩ := hall
      have hc : (a.isDigit && b.isDigit && decide (1 ≤ 10 * digitVal a + digitVal b) &&
          decide (10 * digitVal a + digitVal b ≤ 31)) = true := by
        rw [ha, hb, decide_eq_true h1, decide_eq_true h31]
        rfl
      simp only [dayPat, if_pos hc]
      rw [hd]
  | a :: b :: c :: t =>
    constructor
    · intro h
      simp only [dayPat] at h
      cases h
    · rintro ⟨_, hlen, _⟩
      rcases hlen with h | h <;> simp at h

theorem monthPat_iff (cs : List Char) (m : Nat) :
    monthPat cs = some m ↔
      (cs.all Char.isDigit = true ∧ (cs.length = 1 ∨ cs.length = 2) ∧
        1 ≤ segNat cs ∧ segNat cs ≤ 12 ∧ m = segNat cs) := by
  match cs with
  | [] => simp [monthPat]
  | [a] =>
    rw [segNat_one]
    constructor
    · intro h
      simp only [monthPat] at h
      by_cases hc : (a.isDigit && !(a == '0')) = true
      · rw [if_pos hc] at h
        rw [Bool.and_eq_true, Bool.not_eq_true'] at hc
        obtain ⟨h1, h2⟩ := hc
        have hf := isDigit_toNat_facts a h1
        have hne : ¬ a.toNat = 48 := by
          intro he
          rw [(char_eq_zero_iff_toNat a).2 he] at h2
          exact absurd h2 (by decide)
        have h0 : '0'.toNat = 48 := rfl
        refine ⟨by simp [h1], Or.inl rfl, ?_, ?_, ?_⟩
        · unfold digitVal
          rw [h0]
          omega
        · unfold digitVal
          rw [h0]
          omega
        · exact (Option.some.inj h).symm
      · rw [if_neg hc] at h
        cases h
    · rintro ⟨hall, _, h1, _, hm⟩
      have h1d : a.isDigit = true := by simpa using hall
      have hz : (a == '0') = false := by
        rw [beq_eq_false_iff_ne]
        intro he
        rw [he] at h1
        exact absurd h1 (by decide)
      simp only [monthPat, h1d, hz, Bool.not_false, Bool.and_self, if_pos]
      rw [hm]
  | [a, b] =>
    rw [segNat_two]
    constructor
    · intro h
      simp only [monthPat] at h
      by_cases hc : (a.isDigit && b.isDigit && decide (1 ≤ 10 * digitVal a + digitVal b) &&
          decide (10 * digitVal a + digitVal b ≤ 12)) = true
      · rw [if_pos hc] at h
        simp only [Bool.and_eq_true, decide_eq_true_eq] at hc
        obtain ⟨⟨⟨h1, h2⟩, h3⟩, h4⟩ := hc
        refine ⟨by simp [h1, h2], Or.inr rfl, h3, h4, (Option.some.inj h).symm⟩
      · rw [if_neg hc] at h
        cases h
    · rintro ⟨hall, _, h1, h12, hm⟩
      simp only [List.all_cons, List.all_nil, Bool.and_true, Bool.and_eq_true] at hall
      obtain ⟨ha, hb⟩ := hall
      have hc : (a.isDigit && b.isDigit && decide (1 ≤ 10 * digitVal a + digitVal b) &&
          decide (10 * digitVal a + digitVal b ≤ 12)) = true := by
        rw [ha, hb, decide_eq_true h1, decide_eq_true h12]
        rfl
      simp only [monthPat, if_pos hc]
      rw [hm]
  | a :: b :: c :: t =>
    constructor
    · intro h
      simp only [monthPat] at h
      cases h
    · rintro ⟨_, hlen, _⟩
      rcases hlen with h | h <;> simp at h

theorem yearPat_iff (cs : List Char) (y : Nat) :
    yearPat cs = some y ↔
      (cs.all Char.isDigit = true ∧ cs.length = 4 ∧ y = segNat cs) := by
  match cs with
  | [a, b, c, d] =>
    rw [segNat_four]
    constructor
    · intro h
      simp only [yearPat] at h
      by_cases hc : (a.isDigit && b.isDigit && c.isDigit && d.isDigit) = true
      · rw [if_pos hc] at h
        simp only [Bool.and_eq_true] at hc
        obtain ⟨⟨⟨h1, h2⟩, h3⟩, h4⟩ := hc
        exact ⟨by simp [h1, h2, h3, h4], rfl, (Option.some.inj h).symm⟩
      · rw [if_neg hc] at h
        cases h
    · rintro ⟨hall, _, hy⟩
      simp only [List.all_cons, List.all_nil, Bool.and_true, Bool.and_eq_true] at hall
      obtain ⟨ha, hb, hc2, hd2⟩ := hall
      have hcond : (a.isDigit && b.isDigit && c.isDigit && d.isDigit) = true := by
        rw [ha, hb, hc2, hd2]
        rfl
      simp only [yearPat, if_pos hcond]
      rw [hy]
  | [] =>
    constructor
    · intro h
      cases h
    · rintro ⟨_, hlen, _⟩
      simp at hlen
  | [a] =>
    constructor
    · intro h
      cases h
    · rintro ⟨_, hlen, _⟩
      simp at hlen
  | [a, b] =>
    constructor
    · intro h
      cases h
    · rintro ⟨_, hlen, _⟩
      simp at hlen
  | [a, b, c] =>
    constructor
    · intro h
      cases h
    · rintro ⟨_, hlen, _⟩
      simp at hlen
  | a :: b :: c :: d :: e :: t =>
    constructor
    · intro h
      cases h
    · rintro ⟨_, hlen, _⟩
      simp only [List.length_cons] at hlen
      omega

/-! ### Claim C3: the birthday grammar -/

/-- Counterexample to C3 as stated: `"1-01-2000"` has a one-digit day,
so it deviates from the claimed strict two-digit grammar, yet the
Birthday validator accepts it (CPython's `%d` also matches a single
digit 1-9). -/
theorem c3_counterexample :
    (parseBirthday "1-01-2000").isSome = true ∧ ¬ StrictBirthdayGrammar "1-01-2000" := by
  refine ⟨rfl, ?_⟩
  rintro ⟨dcs, mcs, ycs, hdec, hdall, hmall, hyall, hdlen, hmlen, hylen, hval⟩
  have hsp : splitDash (String.data "1-01-2000") = [dcs, mcs, ycs] := by
    rw [hdec, splitDash_append_dash _ _ (no_dash_of_all_digit dcs hdall),
      splitDash_append_dash _ _ (no_dash_of_all_digit mcs hmall),
      splitDash_no_dash _ (no_dash_of_all_digit ycs hyall)]
  have hc : splitDash (String.data "1-01-2000") = [['1'], ['0', '1'], ['2', '0', '0', '0']] := rfl
  rw [hc] at hsp
  injection hsp with h1 h2
  rw [← h1] at hdlen
  simp at hdlen

/-- Claim C3 (amended): the Birthday validator accepts exactly the
strings of the form day-hyphen-month-hyphen-year where the day is one
or two digits with value 1-31, the month is one or two digits with
value 1-12, the year is exactly four digits, and the three values
denote a possible calendar date; in particular one-digit days and
months are (contrary to the original claim) accepted. -/
theorem c3_amended (s : String) :
    (parseBirthday s).isSome = true ↔ BirthdayGrammar s := by
  constructor
  · intro h
    unfold parseBirthday at h
    split at h
    · next dcs mcs ycs heq =>
      split at h
      · next d m y hd hm hy =>
        split at h
        · next hv =>
          obtain ⟨hdall, hdlen, hd1, hd31, hdseg⟩ := (dayPat_iff dcs d).1 hd
          obtain ⟨hmall, hmlen, hm1, hm12, hmseg⟩ := (monthPat_iff mcs m).1 hm
          obtain ⟨hyall, hylen, hyseg⟩ := (yearPat_iff ycs y).1 hy
          have hjoin : s.data = dcs ++ '-' :: (mcs ++ '-' :: ycs) := by
            have hj := joinDash_splitDash s.data
            rw [heq] at hj
            exact hj.symm
          rw [hdseg, hmseg, hyseg] at hv
          exact ⟨dcs, mcs, ycs, hjoin, hdall, hmall, hyall, hdlen, hmlen, hylen,
            hd1, hd31, hm1, hm12, hv⟩
        · next => simp at h
      · next => simp at h
    · next => simp at h
  · rintro ⟨dcs, mcs, ycs, hdec, hdall, hmall, hyall, hdlen, hmlen, hylen,
      hd1, hd31, hm1, hm12, hval⟩
    have hd : dayPat dcs = some (segNat dcs) :=
      (dayPat_iff dcs _).2 ⟨hdall, hdlen, hd1, hd31, rfl⟩
    have hm : monthPat mcs = some (segNat mcs) :=
      (monthPat_iff mcs _).2 ⟨hmall, hmlen, hm1, hm12, rfl⟩
    have hy : yearPat ycs = some (segNat ycs) :=
      (yearPat_iff ycs _).2 ⟨hyall, hylen, rfl⟩
    have hsp : splitDash s.data = [dcs, mcs, ycs] := by
      rw [hdec, splitDash_append_dash _ _ (no_dash_of_all_digit dcs hdall),
        splitDash_append_dash _ _ (no_dash_of_all_digit mcs hmall),
        splitDash_no_dash _ (no_dash_of_all_digit ycs hyall)]
    simp only [parseBirthday, hsp, hd, hm, hy]
    rw [if_pos hval]
    rfl

/-! ### Cross-record uniqueness infrastructure (Claim C2) -/

theorem findRec_mem (b : Book) (n : String) (r : Rec) (h : findRec b n = some r) :
    (n, r) ∈ b := by
  induction b with
  | nil => cases h
  | cons e t ih =>
    simp only [findRec] at h
    by_cases hc : e.1 = n
    · rw [if_pos hc] at h
      obtain ⟨e1, e2⟩ := e
      simp only at hc
      subst hc
      have h2 := Option.some.inj h
      subst h2
      exact List.mem_cons_self _ t
    · rw [if_neg hc] at h
      exact List.mem_cons_of_mem e (ih h)

theorem mem_setRec {b : Book} {n : String} {r' : Rec} {e' : String × Rec}
    (h : e' ∈ setRec b n r') :
    e' = (n, r') ∨ (e' ∈ b ∧ e'.1 ≠ n) := by
  unfold setRec at h
  obtain ⟨e, he, hf⟩ := List.mem_map.1 h
  by_cases hc : e.1 = n
  · rw [if_pos hc] at hf
    exact Or.inl hf.symm
  · rw [if_neg hc] at hf
    subst hf
    exact Or.inr ⟨he, hc⟩

theorem PhoneFree.not_mem {b : Book} {ex v : String} (h : PhoneFree b ex v)
    {e : String × Rec} (he : e ∈ b) (hne : e.1 ≠ ex) : v ∉ (Prod.snd e).phones := by
  rcases h e he with ⟨_, heq⟩ | hno
  · exact absurd heq hne
  · exact hno

theorem EmailFree.not_eq {b : Book} {ex em : String} (h : EmailFree b ex em)
    {e : String × Rec} (he : e ∈ b) (hne : e.1 ≠ ex) : (Prod.snd e).email ≠ some em := by
  rcases h e he with ⟨_, heq⟩ | hno
  · exact absurd heq hne
  · exact hno

theorem cross_setRec_phoneAdd (b : Book) (n : String) (r r' : Rec) (w : String)
    (hC : CrossPhones b) (hE : CrossEmails b)
    (hf : findRec b n = some r)
    (hsub : ∀ v ∈ r'.phones, v ∈ r.phones ∨ v = w)
    (hw : ∀ e ∈ b, e.1 ≠ n → w ∉ (Prod.snd e).phones)
    (hem : r'.email = r.email) :
    CrossPhones (setRec b n r') ∧ CrossEmails (setRec b n r') := by
  have hmem := findRec_mem b n r hf
  constructor
  · intro p₁ hp₁ p₂ hp₂ hne v hv1 hv2
    rcases mem_setRec hp₁ with rfl | ⟨hin1, hq1⟩ <;>
      rcases mem_setRec hp₂ with rfl | ⟨hin2, hq2⟩
    · exact hne rfl
    · rcases hsub v hv1 with hvr | rfl
      · exact hC (n, r) hmem p₂ hin2 (fun hh => hq2 hh.symm) v hvr hv2
      · exact hw p₂ hin2 hq2 hv2
    · rcases hsub v hv2 with hvr | rfl
      · exact hC p₁ hin1 (n, r) hmem hq1 v hv1 hvr
      · exact hw p₁ hin1 hq1 hv1
    · exact hC p₁ hin1 p₂ hin2 hne v hv1 hv2
  · intro p₁ hp₁ p₂ hp₂ hne em hem1 hem2
    rcases mem_setRec hp₁ with rfl | ⟨hin1, hq1⟩ <;>
      rcases mem_setRec hp₂ with rfl | ⟨hin2, hq2⟩
    · exact hne rfl
    · rw [show (Prod.snd (n, r')).email = r.email from hem] at hem1
      exact hE (n, r) hmem p₂ hin2 (fun hh => hq2 hh.symm) em hem1 hem2
    · rw [show (Prod.snd (n, r')).email = r.email from hem] at hem2
      exact hE p₁ hin1 (n, r) hmem hq1 em hem1 hem2
    · exact hE p₁ hin1 p₂ hin2 hne em hem1 hem2

theorem cross_setRec_emailSet (b : Book) (n : String) (r r' : Rec) (w : String)
    (hC : CrossPhones b) (hE : CrossEmails b)
    (hf : findRec b n = some r)
    (hph : r'.phones = r.phones)
    (hem : r'.email = some w)
    (hw : ∀ e ∈ b, e.1 ≠ n → (Prod.snd e).email ≠ some w) :
    CrossPhones (setRec b n r') ∧ CrossEmails (setRec b n r') := by
  have hmem := findRec_mem b n r hf
  constructor
  · intro p₁ hp₁ p₂ hp₂ hne v hv1 hv2
    rcases mem_setRec hp₁ with rfl | ⟨hin1, hq1⟩ <;>
      rcases mem_setRec hp₂ with rfl | ⟨hin2, hq2⟩
    · exact hne rfl
    · rw [show (Prod.snd (n, r')).phones = r.phones from hph] at hv1
      exact hC (n, r) hmem p₂ hin2 (fun hh => hq2 hh.symm) v hv1 hv2
    · rw [show (Prod.snd (n, r')).phones = r.phones from hph] at hv2
      exact hC p₁ hin1 (n, r) hmem hq1 v hv1 hv2
    · exact hC p₁ hin1 p₂ hin2 hne v hv1 hv2
  · intro p₁ hp₁ p₂ hp₂ hne em hem1 hem2
    rcases mem_setRec hp₁ with rfl | ⟨hin1, hq1⟩ <;>
      rcases mem_setRec hp₂ with rfl | ⟨hin2, hq2⟩
    · exact hne rfl
    · rw [show (Prod.snd (n, r')).email = some w from hem] at hem1
      have := Option.some.inj hem1
      subst this
      exact hw p₂ hin2 hq2 hem2
    · rw [show (Prod.snd (n, r')).email = some w from hem] at hem2
      have := Option.some.inj hem2
      subst this
      exact hw p₁ hin1 hq1 hem1
    · exact hE p₁ hin1 p₂ hin2 hne em hem1 hem2

theorem cross_setRec_neutral (b : Book) (n : String) (r r' : Rec)
    (hC : CrossPhones b) (hE : CrossEmails b)
    (hf : findRec b n = some r)
    (hph : r'.phones = r.phones)
    (hem : r'.email = r.email) :
    CrossPhones (setRec b n r') ∧ CrossEmails (setRec b n r') := by
  have hmem := findRec_mem b n r hf
  constructor
  · intro p₁ hp₁ p₂ hp₂ hne v hv1 hv2
    rcases mem_setRec hp₁ with rfl | ⟨hin1, hq1⟩ <;>
      rcases mem_setRec hp₂ with rfl | ⟨hin2, hq2⟩
    · exact hne rfl
    · rw [show (Prod.snd (n, r')).phones = r.phones from hph] at hv1
      exact hC (n, r) hmem p₂ hin2 (fun hh => hq2 hh.symm) v hv1 hv2
    · rw [show (Prod.snd (n, r')).phones = r.phones from hph] at hv2
      exact hC p₁ hin1 (n, r) hmem hq1 v hv1 hv2
    · exact hC p₁ hin1 p₂ hin2 hne v hv1 hv2
  · intro p₁ hp₁ p₂ hp₂ hne em hem1 hem2
    rcases mem_setRec hp₁ with rfl | ⟨hin1, hq1⟩ <;>
      rcases mem_setRec hp₂ with rfl | ⟨hin2, hq2⟩
    · exact hne rfl
    · rw [show (Prod.snd (n, r')).email = r.email from hem] at hem1
      exact hE (n, r) hmem p₂ hin2 (fun hh => hq2 hh.symm) em hem1 hem2
    · rw [show (Prod.snd (n, r')).email = r.email from hem] at hem2
      exact hE p₁ hin1 (n, r) hmem hq1 em hem1 hem2
    · exact hE p₁ hin1 p₂ hin2 hne em hem1 hem2

theorem cross_append_new (b : Book) (n : String) (r : Rec)
    (hC : CrossPhones b) (hE : CrossEmails b)
    (hph : r.phones = []) (hem : r.email = none) :
    CrossPhones (b ++ [(n, r)]) ∧ CrossEmails (b ++ [(n, r)]) := by
  constructor
  · intro p₁ hp₁ p₂ hp₂ hne v hv1 hv2
    rcases List.mem_append.1 hp₁ with h1 | h1 <;>
      rcases List.mem_append.1 hp₂ with h2 | h2
    · exact hC p₁ h1 p₂ h2 hne v hv1 hv2
    · rw [List.mem_singleton.1 h2] at hv2
      rw [show (Prod.snd (n, r)).phones = [] from hph] at hv2
      exact absurd hv2 (List.not_mem_nil v)
    · rw [List.mem_singleton.1 h1] at hv1
      rw [show (Prod.snd (n, r)).phones = [] from hph] at hv1
      exact absurd hv1 (List.not_mem_nil v)
    · rw [List.mem_singleton.1 h1, List.mem_singleton.1 h2] at hne
      exact hne rfl
  · intro p₁ hp₁ p₂ hp₂ hne em hem1 hem2
    rcases List.mem_append.1 hp₁ with h1 | h1 <;>
      rcases List.mem_append.1 hp₂ with h2 | h2
    · exact hE p₁ h1 p₂ h2 hne em hem1 hem2
    · rw [List.mem_singleton.1 h2] at hem2
      rw [show (Prod.snd (n, r)).email = none from hem] at hem2
      cases hem2
    · rw [List.mem_singleton.1 h1] at hem1
      rw [show (Prod.snd (n, r)).email = none from hem] at hem1
      cases hem1
    · rw [List.mem_singleton.1 h1, List.mem_singleton.1 h2] at hne
      exact hne rfl

theorem cross_subset (b b' : Book) (hsub : b' ⊆ b)
    (hC : CrossPhones b) (hE : CrossEmails b) :
    CrossPhones b' ∧ CrossEmails b' := by
  constructor
  · intro p₁ hp₁ p₂ hp₂ hne v hv1 hv2
    exact hC p₁ (hsub hp₁) p₂ (hsub hp₂) hne v hv1 hv2
  · intro p₁ hp₁ p₂ hp₂ hne em hem1 hem2
    exact hE p₁ (hsub hp₁) p₂ (hsub hp₂) hne em hem1 hem2

theorem recAddPhone_spec (r r' : Rec) (p : String) (h : recAddPhone r p = .ok r') :
    (∀ w ∈ r'.phones, w ∈ r.phones ∨ w = Phone.normalize p) ∧ r'.email = r.email := by
  unfold recAddPhone at h
  by_cases hm : Phone.normalize p ∈ r.phones
  · rw [if_pos hm] at h
    injection h with h
    subst h
    exact ⟨fun w hw => Or.inl hw, rfl⟩
  · rw [if_neg hm] at h
    cases hpm : phoneMk p with
    | none => rw [hpm] at h; cases h
    | some v =>
      simp only [hpm] at h
      have hv := phoneMk_eq_normalize p v hpm
      subst hv
      rw [if_neg hm] at h
      injection h with h
      subst h
      refine ⟨fun w hw => ?_, rfl⟩
      rcases List.mem_append.1 hw with hw | hw
      · exact Or.inl hw
      · exact Or.inr (List.mem_singleton.1 hw)

theorem editPhoneList_mem (ps ps' : List String) (normOld newRaw : String)
    (h : editPhoneList ps normOld newRaw = .ok ps') :
    ∀ w ∈ ps', w ∈ ps ∨ w = Phone.normalize newRaw := by
  induction ps generalizing ps' with
  | nil => cases h
  | cons p rest ih =>
    unfold editPhoneList at h
    by_cases hc : p = normOld
    · rw [if_pos hc] at h
      cases hpm : phoneMk newRaw with
      | none => rw [hpm] at h; cases h
      | some v =>
        simp only [hpm] at h
        injection h with h
        subst h
        intro w hw
        rcases List.mem_cons.1 hw with rfl | hw
        · exact Or.inr (phoneMk_eq_normalize newRaw w hpm)
        · exact Or.inl (List.mem_cons_of_mem p hw)
    · rw [if_neg hc] at h
      cases hrec : editPhoneList rest normOld newRaw with
      | error e => rw [hrec] at h; cases h
      | ok rest' =>
        simp only [hrec] at h
        injection h with h
        subst h
        intro w hw
        rcases List.mem_cons.1 hw with rfl | hw
        · exact Or.inl (List.mem_cons_self w rest)
        · rcases ih rest' hrec w hw with hh | hh
          · exact Or.inl (List.mem_cons_of_mem p hh)
          · exact Or.inr hh

theorem recEditPhone_spec (r r' : Rec) (oldRaw newRaw : String)
    (h : recEditPhone r oldRaw newRaw = .ok r') :
    (∀ w ∈ r'.phones, w ∈ r.phones ∨ w = Phone.normalize newRaw) ∧ r'.email = r.email := by
  unfold recEditPhone at h
  cases he : editPhoneList r.phones (Phone.normalize oldRaw) newRaw with
  | error e => rw [he] at h; cases h
  | ok ps =>
    simp only [he] at h
    injection h with h
    subst h
    exact ⟨editPhoneList_mem _ _ _ _ he, rfl⟩

/-! ### Invariant preservation by each service operation -/

theorem inv_acPhoneStep (b : Book) (name : String) (st : List String) (ph : Option String)
    (hC : CrossPhones b) (hE : CrossEmails b) :
    CrossPhones (acPhoneStep b name st ph).1 ∧ CrossEmails (acPhoneStep b name st ph).1 := by
  cases ph with
  | none => exact ⟨hC, hE⟩
  | some p =>
    by_cases hpe : p = ""
    · simp only [acPhoneStep, if_pos hpe]
      exact ⟨hC, hE⟩
    · simp only [acPhoneStep, if_neg hpe]
      cases hfind : findRec b name with
      | none => exact ⟨hC, hE⟩
      | some r =>
        dsimp only
        by_cases hfree : PhoneFree b name (Phone.normalize p)
        · rw [if_pos hfree]
          by_cases hmem : Phone.normalize p ∈ r.phones
          · rw [if_pos hmem]
            exact ⟨hC, hE⟩
          · rw [if_neg hmem]
            cases hadd : recAddPhone r p with
            | error e => exact ⟨hC, hE⟩
            | ok r' =>
              dsimp only
              obtain ⟨hsub, hem⟩ := recAddPhone_spec r r' p hadd
              exact cross_setRec_phoneAdd b name r r' (Phone.normalize p) hC hE hfind hsub
                (fun e he hne => PhoneFree.not_mem hfree he hne) hem
        · rw [if_neg hfree]
          exact ⟨hC, hE⟩

theorem inv_acEmailStep (b : Book) (name : String) (st : List String) (em : Option String)
    (hC : CrossPhones b) (hE : CrossEmails b) :
    CrossPhones (acEmailStep b name st em).1 ∧ CrossEmails (acEmailStep b name st em).1 := by
  cases em with
  | none => exact ⟨hC, hE⟩
  | some e =>
    by_cases hpe : e = ""
    · simp only [acEmailStep, if_pos hpe]
      exact ⟨hC, hE⟩
    · simp only [acEmailStep, if_neg hpe]
      cases hfind : findRec b name with
      | none => exact ⟨hC, hE⟩
      | some r =>
        dsimp only
        by_cases hfree : EmailFree b name e
        · rw [if_pos hfree]
          by_cases hsame : r.email = some e
          · rw [if_pos hsame]
            exact ⟨hC, hE⟩
          · rw [if_neg hsame]
            by_cases hval : emailValid e = true
            · rw [if_pos hval]
              exact cross_setRec_emailSet b name r { r with email := some e } e hC hE hfind
                rfl rfl (fun en he hne => EmailFree.not_eq hfree he hne)
            · rw [if_neg hval]
              exact ⟨hC, hE⟩
        · rw [if_neg hfree]
          exact ⟨hC, hE⟩

theorem inv_acBirthdayStep (b : Book) (name : String) (st : List String) (bd : Option String)
    (hC : CrossPhones b) (hE : CrossEmails b) :
    CrossPhones (acBirthdayStep b name st bd).1 ∧ CrossEmails (acBirthdayStep b name st bd).1 := by
  cases bd with
  | none => exact ⟨hC, hE⟩
  | some v =>
    by_cases hpe : v = ""
    · simp only [acBirthdayStep, if_pos hpe]
      exact ⟨hC, hE⟩
    · simp only [acBirthdayStep, if_neg hpe]
      cases hfind : findRec b name with
      | none => exact ⟨hC, hE⟩
      | some r =>
        dsimp only
        cases hp : parseBirthday v with
        | none => exact ⟨hC, hE⟩
        | some dt =>
          dsimp only
          exact cross_setRec_neutral b name r { r with birthday := some dt } hC hE hfind rfl rfl

theorem inv_addContactSteps (b : Book) (name : String) (st : List String)
    (ph em bd : Option String) (hC : CrossPhones b) (hE : CrossEmails b) :
    CrossPhones (addContactSteps b name st ph em bd).1 ∧
      CrossEmails (addContactSteps b name st ph em bd).1 := by
  have hI1 := inv_acPhoneStep b name st ph hC hE
  unfold addContactSteps
  cases h1 : acPhoneStep b name st ph with
  | mk b1 res1 =>
    rw [h1] at hI1
    cases res1 with
    | error e => exact hI1
    | ok st1 =>
      dsimp only
      have hI2 := inv_acEmailStep b1 name st1 em hI1.1 hI1.2
      cases h2 : acEmailStep b1 name st1 em with
      | mk b2 res2 =>
        rw [h2] at hI2
        cases res2 with
        | error e => exact hI2
        | ok st2 =>
          dsimp only
          have hI3 := inv_acBirthdayStep b2 name st2 bd hI2.1 hI2.2
          cases h3 : acBirthdayStep b2 name st2 bd with
          | mk b3 res3 =>
            rw [h3] at hI3
            cases res3 with
            | error e => exact hI3
            | ok st3 => exact hI3

theorem inv_acCreate (b : Book) (name : String) (b1 : Book) (st : List String)
    (hc : acCreate b name = .ok (b1, st))
    (hC : CrossPhones b) (hE : CrossEmails b) :
    CrossPhones b1 ∧ CrossEmails b1 := by
  unfold acCreate at hc
  cases hfind : findRec b name with
  | some r =>
    simp only [hfind] at hc
    injection hc with hc
    rw [Prod.mk.injEq] at hc
    obtain ⟨hb1, _⟩ := hc
    subst hb1
    exact ⟨hC, hE⟩
  | none =>
    simp only [hfind] at hc
    by_cases hne : name = ""
    · rw [if_pos hne] at hc
      cases hc
    · rw [if_neg hne] at hc
      injection hc with hc
      rw [Prod.mk.injEq] at hc
      obtain ⟨hb1, _⟩ := hc
      subst hb1
      have hns : (findRec b (emptyRec name).name).isSome = false := by
        rw [show (emptyRec name).name = name from rfl, hfind]
        rfl
      unfold addRecord
      rw [if_neg (show ¬ ((findRec b (emptyRec name).name).isSome = true) by
        rw [hns]; exact Bool.false_ne_true)]
      exact cross_append_new b name (emptyRec name) hC hE rfl rfl

theorem inv_addContact (b : Book) (name : String) (ph em bd : Option String)
    (hC : CrossPhones b) (hE : CrossEmails b) :
    CrossPhones (addContact b name ph em bd).1 ∧ CrossEmails (addContact b name ph em bd).1 := by
  unfold addContact
  cases hc : acCreate b name with
  | error e => exact ⟨hC, hE⟩
  | ok pr =>
    obtain ⟨b1, st⟩ := pr
    dsimp only
    have hI := inv_acCreate b name b1 st hc hC hE
    exact inv_addContactSteps b1 name st ph em bd hI.1 hI.2

theorem inv_changePhone (b : Book) (name oldRaw newRaw : String)
    (hC : CrossPhones b) (hE : CrossEmails b) :
    CrossPhones (changePhone b name oldRaw newRaw).1 ∧
      CrossEmails (changePhone b name oldRaw newRaw).1 := by
  unfold changePhone
  cases hfind : findRec b name with
  | none => exact ⟨hC, hE⟩
  | some r =>
    dsimp only
    by_cases hfree : PhoneFree b name (Phone.normalize newRaw)
    · rw [if_pos hfree]
      cases hedit : recEditPhone r oldRaw newRaw with
      | error e => exact ⟨hC, hE⟩
      | ok r' =>
        dsimp only
        obtain ⟨hsub, hem⟩ := recEditPhone_spec r r' oldRaw newRaw hedit
        exact cross_setRec_phoneAdd b name r r' (Phone.normalize newRaw) hC hE hfind hsub
          (fun e he hne => PhoneFree.not_mem hfree he hne) hem
    · rw [if_neg hfree]
      exact ⟨hC, hE⟩

theorem inv_addPhoneToContact (b : Book) (name phone : String)
    (hC : CrossPhones b) (hE : CrossEmails b) :
    CrossPhones (addPhoneToContact b name phone).1 ∧
      CrossEmails (addPhoneToContact b name phone).1 := by
  unfold addPhoneToContact
  cases hfind : findRec b name with
  | none => exact ⟨hC, hE⟩
  | some r =>
    dsimp only
    by_cases hfree : PhoneFree b name (Phone.normalize phone)
    · rw [if_pos hfree]
      by_cases hmem : Phone.normalize phone ∈ r.phones
      · rw [if_pos hmem]
        exact ⟨hC, hE⟩
      · rw [if_neg hmem]
        cases hadd : recAddPhone r phone with
        | error e => exact ⟨hC, hE⟩
        | ok r' =>
          dsimp only
          obtain ⟨hsub, hem⟩ := recAddPhone_spec r r' phone hadd
          exact cross_setRec_phoneAdd b name r r' (Phone.normalize phone) hC hE hfind hsub
            (fun e he hne => PhoneFree.not_mem hfree he hne) hem
    · rw [if_neg hfree]
      exact ⟨hC, hE⟩

theorem inv_svcAddEmail (b : Book) (name em : String)
    (hC : CrossPhones b) (hE : CrossEmails b) :
    CrossPhones (svcAddEmail b name em).1 ∧ CrossEmails (svcAddEmail b name em).1 := by
  unfold svcAddEmail
  cases hfind : findRec b name with
  | none => exact ⟨hC, hE⟩
  | some r =>
    dsimp only
    by_cases hfree : EmailFree b name em
    · rw [if_pos hfree]
      by_cases hval : emailValid em = true
      · rw [if_pos hval]
        exact cross_setRec_emailSet b name r { r with email := some em } em hC hE hfind
          rfl rfl (fun en he hne => EmailFree.not_eq hfree he hne)
      · rw [if_neg hval]
        exact ⟨hC, hE⟩
    · rw [if_neg hfree]
      exact ⟨hC, hE⟩

theorem inv_svcAddBirthday (b : Book) (name bd : String)
    (hC : CrossPhones b) (hE : CrossEmails b) :
    CrossPhones (svcAddBirthday b name bd).1 ∧ CrossEmails (svcAddBirthday b name bd).1 := by
  unfold svcAddBirthday
  cases hfind : findRec b name with
  | none => exact ⟨hC, hE⟩
  | some r =>
    dsimp only
    cases hp : parseBirthday bd with
    | none => exact ⟨hC, hE⟩
    | some dt =>
      dsimp only
      exact cross_setRec_neutral b name r { r with birthday := some dt } hC hE hfind rfl rfl

theorem inv_svcAddNote (b : Book) (name note : String)
    (hC : CrossPhones b) (hE : CrossEmails b) :
    CrossPhones (svcAddNote b name note).1 ∧ CrossEmails (svcAddNote b name note).1 := by
  unfold svcAddNote
  cases hfind : findRec b name with
  | none => exact ⟨hC, hE⟩
  | some r =>
    dsimp only
    refine cross_setRec_neutral b name r (recAddNote r note) hC hE hfind ?_ ?_
    · unfold recAddNote
      split <;> rfl
    · unfold recAddNote
      split <;> rfl

theorem inv_svcEditNote (b : Book) (name : String) (i : Nat) (t : String)
    (hC : CrossPhones b) (hE : CrossEmails b) :
    CrossPhones (svcEditNote b name i t).1 ∧ CrossEmails (svcEditNote b name i t).1 := by
  unfold svcEditNote
  cases hfind : findRec b name with
  | none => exact ⟨hC, hE⟩
  | some r =>
    dsimp only
    by_cases hlen : i < r.notes.length
    · rw [if_pos hlen]
      exact cross_setRec_neutral b name r { r with notes := r.notes.set i t } hC hE hfind rfl rfl
    · rw [if_neg hlen]
      exact ⟨hC, hE⟩

theorem inv_svcDeleteNote (b : Book) (name : String) (i : Nat)
    (hC : CrossPhones b) (hE : CrossEmails b) :
    CrossPhones (svcDeleteNote b name i).1 ∧ CrossEmails (svcDeleteNote b name i).1 := by
  unfold svcDeleteNote
  cases hfind : findRec b name with
  | none => exact ⟨hC, hE⟩
  | some r =>
    dsimp only
    by_cases hlen : i < r.notes.length
    · rw [if_pos hlen]
      exact cross_setRec_neutral b name r { r with notes := r.notes.eraseIdx i } hC hE hfind rfl rfl
    · rw [if_neg hlen]
      exact ⟨hC, hE⟩

theorem inv_svcAddTag (b : Book) (name tag : String)
    (hC : CrossPhones b) (hE : CrossEmails b) :
    CrossPhones (svcAddTag b name tag).1 ∧ CrossEmails (svcAddTag b name tag).1 := by
  unfold svcAddTag
  cases hfind : findRec b name with
  | none => exact ⟨hC, hE⟩
  | some r =>
    dsimp only
    refine cross_setRec_neutral b name r (recAddTag r tag) hC hE hfind ?_ ?_
    · unfold recAddTag
      split <;> rfl
    · unfold recAddTag
      split <;> rfl

theorem inv_svcRemoveTag (b : Book) (name tag : String)
    (hC : CrossPhones b) (hE : CrossEmails b) :
    CrossPhones (svcRemoveTag b name tag).1 ∧ CrossEmails (svcRemoveTag b name tag).1 := by
  unfold svcRemoveTag
  cases hfind : findRec b name with
  | none => exact ⟨hC, hE⟩
  | some r =>
    dsimp only
    refine cross_setRec_neutral b name r (recRemoveTag r tag) hC hE hfind ?_ ?_
    · unfold recRemoveTag
      split <;> rfl
    · unfold recRemoveTag
      split <;> rfl

theorem inv_deleteContact (b : Book) (name : String)
    (hC : CrossPhones b) (hE : CrossEmails b) :
    CrossPhones (deleteContact b name).1 ∧ CrossEmails (deleteContact b name).1 := by
  unfold deleteContact
  by_cases hfind : (findRec b name).isSome = true
  · rw [if_pos hfind]
    exact cross_subset b _ (fun x hx => (List.mem_filter.1 hx).1) hC hE
  · rw [if_neg hfind]
    exact ⟨hC, hE⟩

/-! ### Claim C2: global cross-record uniqueness -/

/-- Claim C2: in every book state reachable from the empty book through
`AddressBookService` operations alone, any two records stored under
different names share no normalized phone value and no email string
(global cross-record uniqueness of phones and emails). -/
theorem c2_cross_record_uniqueness (b : Book) (h : Reach b) :
    CrossPhones b ∧ CrossEmails b := by
  induction h with
  | empty =>
    exact ⟨fun p₁ hp₁ => absurd hp₁ (List.not_mem_nil p₁),
      fun p₁ hp₁ => absurd hp₁ (List.not_mem_nil p₁)⟩
  | addContact name ph em bd _ ih => exact inv_addContact _ name ph em bd ih.1 ih.2
  | changePhone name oldRaw newRaw _ ih => exact inv_changePhone _ name oldRaw newRaw ih.1 ih.2
  | addPhoneToContact name phone _ ih => exact inv_addPhoneToContact _ name phone ih.1 ih.2
  | deleteContact name _ ih => exact inv_deleteContact _ name ih.1 ih.2
  | addEmail name em _ ih => exact inv_svcAddEmail _ name em ih.1 ih.2
  | addBirthday name bd _ ih => exact inv_svcAddBirthday _ name bd ih.1 ih.2
  | addNote name note _ ih => exact inv_svcAddNote _ name note ih.1 ih.2
  | editNote name i t _ ih => exact inv_svcEditNote _ name i t ih.1 ih.2
  | deleteNote name i _ ih => exact inv_svcDeleteNote _ name i ih.1 ih.2
  | addTag name tag _ ih => exact inv_svcAddTag _ name tag ih.1 ih.2
  | removeTag name tag _ ih => exact inv_svcRemoveTag _ name tag ih.1 ih.2
  | deleteAll _ _ =>
    exact ⟨fun p₁ hp₁ => absurd hp₁ (List.not_mem_nil p₁),
      fun p₁ hp₁ => absurd hp₁ (List.not_mem_nil p₁)⟩

/-- Witness for C2: the book reached by adding Ann with a phone, then
Bob with another phone and an email, is reachable and satisfies both
cross-record uniqueness invariants. -/
theorem c2_witness :
    CrossPhones (addContact (addContact [] "Ann" (some "0501234567") none none).1
        "Bob" (some "0507654321") (some "b@x.co") none).1 ∧
    CrossEmails (addContact (addContact [] "Ann" (some "0501234567") none none).1
        "Bob" (some "0507654321") (some "b@x.co") none).1 :=
  c2_cross_record_uniqueness _
    (Reach.addContact "Bob" (some "0507654321") (some "b@x.co") none
      (Reach.addContact "Ann" (some "0501234567") none none Reach.empty))

/-! ### Calendar arithmetic lemmas (Claims C4, C5) -/

theorem isLeap_iff (y : Nat) :
    isLeap y = true ↔ (y % 4 = 0 ∧ (y % 100 ≠ 0 ∨ y % 400 = 0)) := by
  simp [isLeap]

theorem validDate_iff (y m d : Nat) :
    validDate y m d = true ↔
      (1 ≤ y ∧ y ≤ 9999 ∧ 1 ≤ m ∧ m ≤ 12 ∧ 1 ≤ d ∧ d ≤ daysInMonthB (isLeap y) m) := by
  simp [validDate, and_assoc]

theorem leap_succ (y : Nat) (h : isLeap y = true) : isLeap (y + 1) = false := by
  rw [isLeap_iff] at h
  cases h2 : isLeap (y + 1) with
  | false => rfl
  | true =>
    rw [isLeap_iff] at h2
    omega

theorem daysBeforeYear_succ (y : Nat) (h : 1 ≤ y) :
    daysBeforeYear (y + 1) = daysBeforeYear y + 365 + (if isLeap y then 1 else 0) := by
  by_cases hl : isLeap y = true
  · rw [if_pos hl]
    rw [isLeap_iff] at hl
    unfold daysBeforeYear
    omega
  · rw [if_neg hl]
    have hl' : ¬ (y % 4 = 0 ∧ (y % 100 ≠ 0 ∨ y % 400 = 0)) :=
      fun hh => hl ((isLeap_iff y).2 hh)
    unfold daysBeforeYear
    omega

theorem daysBeforeYear_le (y1 y2 : Nat) (h1 : 1 ≤ y1) (h : y1 ≤ y2) :
    daysBeforeYear y1 ≤ daysBeforeYear y2 := by
  induction y2, h using Nat.le_induction with
  | base => exact Nat.le_refl _
  | succ y2 hy ih =>
    have := daysBeforeYear_succ y2 (Nat.le_trans h1 hy)
    omega

theorem dbm_add_dim (L : Bool) (m : Nat) (h1 : 1 ≤ m) (h2 : m ≤ 12) :
    daysBeforeMonthB L m + daysInMonthB L m = daysBeforeMonthB L (m + 1) := by
  interval_cases m <;> cases L <;> decide

theorem dbm_mono (L : Bool) (m1 m2 : Nat) (h1 : 1 ≤ m1) (h : m1 < m2) (h2 : m2 ≤ 12) :
    daysBeforeMonthB L m1 + daysInMonthB L m1 ≤ daysBeforeMonthB L m2 := by
  have h1' : m1 ≤ 12 := by omega
  interval_cases m1 <;> interval_cases m2 <;> cases L <;> decide

theorem dbm_dim_le (L : Bool) (m : Nat) (h1 : 1 ≤ m) (h2 : m ≤ 12) :
    daysBeforeMonthB L m + daysInMonthB L m ≤ 365 + (if L then 1 else 0) := by
  interval_cases m <;> cases L <;> decide

theorem dim_ne_two (L L' : Bool) (m : Nat) (h : m ≠ 2) :
    daysInMonthB L m = daysInMonthB L' m := by
  simp [daysInMonthB, h]

theorem ord_lb (y m d : Nat) (h : validDate y m d = true) :
    daysBeforeYear y + 1 ≤ toOrdinal (y, m, d) := by
  obtain ⟨_, _, _, _, hd, _⟩ := (validDate_iff y m d).1 h
  unfold toOrdinal
  simp only
  omega

theorem ord_ub (y m d : Nat) (h : validDate y m d = true) :
    toOrdinal (y, m, d) ≤ daysBeforeYear y + 365 + (if isLeap y then 1 else 0) := by
  obtain ⟨_, _, hm1, hm2, hd1, hd2⟩ := (validDate_iff y m d).1 h
  have := dbm_dim_le (isLeap y) m hm1 hm2
  unfold toOrdinal
  simp only
  omega

theorem dateLt_iff (a b : PDate) :
    dateLt a b = true ↔
      (a.1 < b.1 ∨ (a.1 = b.1 ∧ (a.2.1 < b.2.1 ∨ (a.2.1 = b.2.1 ∧ a.2.2 < b.2.2)))) := by
  simp [dateLt]

theorem dateLt_irrefl (a : PDate) : dateLt a a = false := by
  cases h : dateLt a a with
  | false => rfl
  | true =>
    rw [dateLt_iff] at h
    omega

theorem dateLt_false_cases (a b : PDate) (h : dateLt a b = false) :
    a = b ∨ dateLt b a = true := by
  obtain ⟨y1, m1, d1⟩ := a
  obtain ⟨y2, m2, d2⟩ := b
  have h' : ¬ (y1 < y2 ∨ (y1 = y2 ∧ (m1 < m2 ∨ (m1 = m2 ∧ d1 < d2)))) := by
    intro hh
    have h2 := (dateLt_iff (y1, m1, d1) (y2, m2, d2)).2 hh
    rw [h] at h2
    cases h2
  rw [dateLt_iff]
  simp only [Prod.mk.injEq]
  omega

theorem ordLt_of_dateLt (a b : PDate)
    (ha : validDate a.1 a.2.1 a.2.2 = true) (hb : validDate b.1 b.2.1 b.2.2 = true)
    (h : dateLt a b = true) : toOrdinal a < toOrdinal b := by
  obtain ⟨y1, m1, d1⟩ := a
  obtain ⟨y2, m2, d2⟩ := b
  rw [dateLt_iff] at h
  simp only at h ha hb
  obtain ⟨hy1a, hy1b, hm1a, hm1b, hd1a, hd1b⟩ := (validDate_iff y1 m1 d1).1 ha
  obtain ⟨hy2a, hy2b, hm2a, hm2b, hd2a, hd2b⟩ := (validDate_iff y2 m2 d2).1 hb
  rcases h with hy | ⟨rfl, h⟩
  · have h1 := ord_ub y1 m1 d1 ha
    have h2 := ord_lb y2 m2 d2 hb
    have h3 := daysBeforeYear_succ y1 hy1a
    have h4 := daysBeforeYear_le (y1 + 1) y2 (by omega) (by omega)
    omega
  · rcases h with hm | ⟨rfl, hd⟩
    · have h1 := dbm_mono (isLeap y1) m1 m2 hm1a hm hm2b
      unfold toOrdinal
      simp only
      omega
    · unfold toOrdinal
      simp only
      omega

theorem ord_le_of_not_dateLt (a b : PDate)
    (ha : validDate a.1 a.2.1 a.2.2 = true) (hb : validDate b.1 b.2.1 b.2.2 = true)
    (h : dateLt a b = false) : toOrdinal b ≤ toOrdinal a := by
  rcases dateLt_false_cases a b h with rfl | hlt
  · exact Nat.le_refl _
  · exact Nat.le_of_lt (ordLt_of_dateLt b a hb ha hlt)

theorem eq_of_ord_eq (a b : PDate)
    (ha : validDate a.1 a.2.1 a.2.2 = true) (hb : validDate b.1 b.2.1 b.2.2 = true)
    (h : toOrdinal a = toOrdinal b) : a = b := by
  cases hab : dateLt a b with
  | true => exact absurd h (Nat.ne_of_lt (ordLt_of_dateLt a b ha hb hab))
  | false =>
    rcases dateLt_false_cases a b hab with heq | hlt
    · exact heq
    · exact absurd h.symm (Nat.ne_of_lt (ordLt_of_dateLt b a hb ha hlt))

theorem thisYearOcc_spec (by0 bm bd y : Nat)
    (hb : validDate by0 bm bd = true) (h1 : 1 ≤ y) (h2 : y ≤ 9999) :
    replaceYearFallback bm bd y = some (thisYearOcc bm bd y) ∧
    validDate (thisYearOcc bm bd y).1 (thisYearOcc bm bd y).2.1
      (thisYearOcc bm bd y).2.2 = true ∧
    (thisYearOcc bm bd y = (y, bm, bd) ∨
      (bm = 2 ∧ bd = 29 ∧ isLeap y = false ∧ thisYearOcc bm bd y = (y, 2, 28))) := by
  obtain ⟨hb1, hb2, hm1, hm2, hd1, hd2⟩ := (validDate_iff by0 bm bd).1 hb
  by_cases hv : validDate y bm bd = true
  · unfold replaceYearFallback thisYearOcc
    rw [if_pos hv, if_pos hv]
    exact ⟨rfl, hv, Or.inl rfl⟩
  · have hdim : daysInMonthB (isLeap y) bm < bd := by
      by_contra hcon
      push_neg at hcon
      exact hv ((validDate_iff y bm bd).2 ⟨h1, h2, hm1, hm2, hd1, hcon⟩)
    have hbm : bm = 2 := by
      by_contra hne
      rw [dim_ne_two (isLeap y) (isLeap by0) bm hne] at hdim
      omega
    subst hbm
    have hdy : daysInMonthB (isLeap y) 2 = if isLeap y then 29 else 28 := by
      simp [daysInMonthB]
    have hdb : daysInMonthB (isLeap by0) 2 = if isLeap by0 then 29 else 28 := by
      simp [daysInMonthB]
    rw [hdy] at hdim
    rw [hdb] at hd2
    have h29 : bd = 29 ∧ isLeap y = false := by
      cases hly : isLeap y with
      | true =>
        exfalso
        rw [hly] at hdim
        simp at hdim
        cases hlb : isLeap by0 <;> rw [hlb] at hd2 <;> simp at hd2 <;> omega
      | false =>
        rw [hly] at hdim
        simp at hdim
        refine ⟨?_, rfl⟩
        cases hlb : isLeap by0 <;> rw [hlb] at hd2 <;> simp at hd2 <;> omega
    obtain ⟨hbd, hly⟩ := h29
    subst hbd
    have hfb : validDate y 2 28 = true := by
      refine (validDate_iff y 2 28).2 ⟨h1, h2, by omega, by omega, by omega, ?_⟩
      simp [daysInMonthB, hly]
    unfold replaceYearFallback thisYearOcc
    rw [if_neg hv, if_neg hv]
    rw [show (29 : Nat) - 1 = 28 from rfl]
    rw [if_pos hfb]
    exact ⟨rfl, hfb, Or.inr ⟨rfl, rfl, hly, rfl⟩⟩

theorem occ_span (by0 bm bd y : Nat)
    (hb : validDate by0 bm bd = true) (h1 : 1 ≤ y) (h2 : y + 1 ≤ 9999) :
    toOrdinal (thisYearOcc bm bd (y + 1)) ≤ toOrdinal (thisYearOcc bm bd y) + 366 := by
  obtain ⟨_, hvy, hshy⟩ := thisYearOcc_spec by0 bm bd y hb h1 (by omega)
  obtain ⟨_, hvy1, hshy1⟩ := thisYearOcc_spec by0 bm bd (y + 1) hb (by omega) h2
  have hsucc := daysBeforeYear_succ y h1
  have hmc_ge : ∀ (L : Bool) (m : Nat), monthCum m ≤ daysBeforeMonthB L m := by
    intro L m
    unfold daysBeforeMonthB
    split <;> omega
  have hmc_le : ∀ (L : Bool) (m : Nat), daysBeforeMonthB L m ≤ monthCum m + 1 := by
    intro L m
    unfold daysBeforeMonthB
    split <;> omega
  have dbm_false : ∀ m : Nat, daysBeforeMonthB false m = monthCum m := by
    intro m
    unfold daysBeforeMonthB
    rw [if_neg (fun hc => Bool.false_ne_true hc.1)]
    omega
  have dbm2 : ∀ L : Bool, daysBeforeMonthB L 2 = 31 := by
    intro L
    cases L <;> decide
  rcases hshy with hA | ⟨hbm, hbd, hly, hA⟩ <;>
    rcases hshy1 with hB | ⟨hbm1, hbd1, hly1, hB⟩
  · rw [hA, hB]
    unfold toOrdinal
    dsimp only
    cases hly : isLeap y with
    | true =>
      have hly1 := leap_succ y hly
      rw [hly1, dbm_false]
      rw [hly] at hsucc
      rw [if_pos rfl] at hsucc
      have g1 := hmc_ge true bm
      have g2 := hmc_le true bm
      omega
    | false =>
      rw [hly] at hsucc
      rw [if_neg (fun hc => Bool.false_ne_true hc)] at hsucc
      rw [dbm_false]
      cases hly1 : isLeap (y + 1) with
      | true =>
        have g1 := hmc_ge true bm
        have g2 := hmc_le true bm
        omega
      | false =>
        rw [dbm_false]
        omega
  · subst hbm1
    subst hbd1
    rw [hA, hB]
    unfold toOrdinal
    dsimp only
    rw [dbm2, dbm2]
    have hle : (if isLeap y = true then 1 else 0) ≤ 1 := by split <;> omega
    omega
  · subst hbm
    subst hbd
    rw [hA, hB]
    unfold toOrdinal
    dsimp only
    rw [dbm2, dbm2]
    rw [hly] at hsucc
    rw [if_neg (fun hc => Bool.false_ne_true hc)] at hsucc
    omega
  · subst hbm
    subst hbd
    rw [hA, hB]
    unfold toOrdinal
    dsimp only
    rw [dbm2, dbm2]
    have hle : (if isLeap y = true then 1 else 0) ≤ 1 := by split <;> omega
    omega

/-- Claim C5 (amended): for every record with a birthday set and every
reference date — excluding only the out-of-range case where the
reference year is 9999 and the (possibly Feb-28-adjusted) occurrence
has already passed, in which code raises an uncaught `ValueError` —
`days_to_birthday` returns an integer in `[0, 365]`, and it returns 0
exactly when the reference month/day equal the birthday's month/day
**or** the birthday is Feb 29, the reference year is not a leap year,
and the reference date is Feb 28. -/
theorem c5_amended (by0 bm bd ty tm td : Nat)
    (hb : validDate by0 bm bd = true) (ht : validDate ty tm td = true)
    (hdom : ty < 9999 ∨ dateLt (thisYearOcc bm bd ty) (ty, tm, td) = false) :
    ∃ n : Int, daysToBirthday bm bd (ty, tm, td) = some n ∧ 0 ≤ n ∧ n ≤ 365 ∧
      (n = 0 ↔ ((tm = bm ∧ td = bd) ∨
        (bm = 2 ∧ bd = 29 ∧ isLeap ty = false ∧ tm = 2 ∧ td = 28))) := by
  obtain ⟨hty1, hty2, htm1, htm2, htd1, htd2⟩ := (validDate_iff ty tm td).1 ht
  obtain ⟨hrfy, hvA, hshA⟩ := thisYearOcc_spec by0 bm bd ty hb hty1 hty2
  set A := thisYearOcc bm bd ty with hAdef
  have hA1 : A.1 = ty := by
    rcases hshA with h | ⟨_, _, _, h⟩ <;> rw [h]
  cases hlt : dateLt A (ty, tm, td) with
  | false =>
    have heval : daysToBirthday bm bd (ty, tm, td)
        = some ((toOrdinal A : Int) - (toOrdinal (ty, tm, td) : Int)) := by
      unfold daysToBirthday
      rw [show replaceYearFallback bm bd ((ty, tm, td) : PDate).1 = some A from hrfy]
      dsimp only
      rw [if_neg (show ¬ dateLt A (ty, tm, td) = true by
        rw [hlt]; exact Bool.false_ne_true)]
    have hle : toOrdinal (ty, tm, td) ≤ toOrdinal A :=
      ord_le_of_not_dateLt A (ty, tm, td) hvA ht hlt
    have hub : toOrdinal A ≤ daysBeforeYear ty + 365 + (if isLeap ty then 1 else 0) := by
      have h := ord_ub A.1 A.2.1 A.2.2 hvA
      have h' : toOrdinal A ≤ daysBeforeYear A.1 + 365 + (if isLeap A.1 then 1 else 0) := h
      rw [hA1] at h'
      exact h' 
    have hlb : daysBeforeYear ty + 1 ≤ toOrdinal (ty, tm, td) := ord_lb ty tm td ht
    have hite : (if isLeap ty then 1 else 0) ≤ 1 := by split <;> omega
    refine ⟨_, heval, by omega, by omega, ?_⟩
    constructor
    · intro h0
      have hEq : toOrdinal A = toOrdinal (ty, tm, td) := by omega
      have hAeq := eq_of_ord_eq A (ty, tm, td) hvA ht hEq
      rcases hshA with h | ⟨hbm2, hbd29, hlyF, h⟩
      · rw [h] at hAeq
        have h1 := congrArg (fun q : PDate => q.2.1) hAeq
        have h2 := congrArg (fun q : PDate => q.2.2) hAeq
        simp only at h1 h2
        exact Or.inl ⟨h1.symm, h2.symm⟩
      · rw [h] at hAeq
        have h1 := congrArg (fun q : PDate => q.2.1) hAeq
        have h2 := congrArg (fun q : PDate => q.2.2) hAeq
        simp only at h1 h2
        exact Or.inr ⟨hbm2, hbd29, hlyF, h1.symm, h2.symm⟩
    · rintro (⟨htmbm, htdbd⟩ | ⟨hbm2, hbd29, hlyF, htm2, htd28⟩)
      · have hv : validDate ty bm bd = true := by
          rw [← htmbm, ← htdbd]
          exact ht
        have hAeq : A = (ty, tm, td) := by
          rw [hAdef]
          unfold thisYearOcc
          rw [if_pos hv, htmbm, htdbd]
        rw [hAeq]
        omega
      · subst hbm2
        subst hbd29
        subst htm2
        subst htd28
        have hnv : ¬ validDate ty 2 29 = true := by
          intro hv
          obtain ⟨_, _, _, _, _, hdd⟩ := (validDate_iff ty 2 29).1 hv
          rw [show daysInMonthB (isLeap ty) 2 = if isLeap ty then 29 else 28 from by
            simp [daysInMonthB]] at hdd
          rw [hlyF] at hdd
          simp at hdd
        have hAeq : A = (ty, 2, 28) := by
          rw [hAdef]
          unfold thisYearOcc
          rw [if_neg hnv]
        rw [hAeq]
        omega
  | true =>
    have hty9 : ty < 9999 := by
      rcases hdom with h | h
      · exact h
      · exact absurd (hlt.symm.trans h) (by decide)
    obtain ⟨hrfy1, hvB, hshB⟩ := thisYearOcc_spec by0 bm bd (ty + 1) hb (by omega) (by omega)
    set B := thisYearOcc bm bd (ty + 1) with hBdef
    have hB1 : B.1 = ty + 1 := by
      rcases hshB with h | ⟨_, _, _, h⟩ <;> rw [h]
    have heval : daysToBirthday bm bd (ty, tm, td)
        = some ((toOrdinal B : Int) - (toOrdinal (ty, tm, td) : Int)) := by
      unfold daysToBirthday
      rw [show replaceYearFallback bm bd ((ty, tm, td) : PDate).1 = some A from hrfy]
      dsimp only
      rw [if_pos hlt]
      rw [show replaceYearFallback bm bd (((ty, tm, td) : PDate).1 + 1) = some B from hrfy1]
    have hltB : dateLt (ty, tm, td) B = true := by
      rw [dateLt_iff]
      left
      dsimp only
      omega
    have hlt2 := ordLt_of_dateLt (ty, tm, td) B ht hvB hltB
    have hltA := ordLt_of_dateLt A (ty, tm, td) hvA ht hlt
    have hspan : toOrdinal B ≤ toOrdinal A + 366 := by
      have h := occ_span by0 bm bd ty hb hty1 (by omega)
      rw [← hAdef, ← hBdef] at h
      exact h
    refine ⟨_, heval, by omega, by omega, ?_⟩
    constructor
    · intro h0
      exfalso
      have : (toOrdinal (ty, tm, td) : Int) < (toOrdinal B : Int) := by exact_mod_cast hlt2
      omega
    · rintro (⟨htmbm, htdbd⟩ | ⟨hbm2, hbd29, hlyF, htm2, htd28⟩) <;> exfalso
      · have hv : validDate ty bm bd = true := by
          rw [← htmbm, ← htdbd]
          exact ht
        have hAeq : A = (ty, tm, td) := by
          rw [hAdef]
          unfold thisYearOcc
          rw [if_pos hv, htmbm, htdbd]
        rw [hAeq, dateLt_irrefl] at hlt
        cases hlt
      · subst hbm2
        subst hbd29
        subst htm2
        subst htd28
        have hnv : ¬ validDate ty 2 29 = true := by
          intro hv
          obtain ⟨_, _, _, _, _, hdd⟩ := (validDate_iff ty 2 29).1 hv
          rw [show daysInMonthB (isLeap ty) 2 = if isLeap ty then 29 else 28 from by
            simp [daysInMonthB]] at hdd
          rw [hlyF] at hdd
          simp at hdd
        have hAeq : A = (ty, 2, 28) := by
          rw [hAdef]
          unfold thisYearOcc
          rw [if_neg hnv]
        rw [hAeq, dateLt_irrefl] at hlt
        cases hlt

theorem feb29_occ (by0 y : Nat) (hb : validDate by0 2 29 = true)
    (h1 : 1 ≤ y) (h2 : y ≤ 9999) :
    (isLeap y = true ∧ thisYearOcc 2 29 y = (y, 2, 29)) ∨
    (isLeap y = false ∧ thisYearOcc 2 29 y = (y, 2, 28)) := by
  obtain ⟨_, hv, hsh⟩ := thisYearOcc_spec by0 2 29 y hb h1 h2
  rcases hsh with h | ⟨_, _, hly, h⟩
  · left
    refine ⟨?_, h⟩
    rw [h] at hv
    obtain ⟨_, _, _, _, _, hdd⟩ := (validDate_iff y 2 29).1 hv
    rw [show daysInMonthB (isLeap y) 2 = if isLeap y then 29 else 28 from by
      simp [daysInMonthB]] at hdd
    cases hL : isLeap y with
    | true => rfl
    | false =>
      rw [hL] at hdd
      simp at hdd
  · right
    exact ⟨hly, h⟩

/-- Claim C4 (amended): for every record whose birthday is Feb 29 and
every reference date — excluding only the out-of-range case where the
reference year is 9999 and the adjusted occurrence has already passed,
in which the code raises an uncaught `ValueError` — `days_to_birthday`
does not fail, and when the year of the next occurrence is not a leap
year the computation treats the birthday as falling on Feb 28 of that
year (never Mar 1); in a leap year it uses Feb 29. -/
theorem c4_amended (by0 ty tm td : Nat)
    (hb : validDate by0 2 29 = true) (ht : validDate ty tm td = true)
    (hdom : ty < 9999 ∨ dateLt (thisYearOcc 2 29 ty) (ty, tm, td) = false) :
    ∃ n : Int, daysToBirthday 2 29 (ty, tm, td) = some n ∧
      ((isLeap (if dateLt (thisYearOcc 2 29 ty) (ty, tm, td) then ty + 1 else ty) = false →
          n = (toOrdinal ((if dateLt (thisYearOcc 2 29 ty) (ty, tm, td) then ty + 1 else ty),
                2, 28) : Int)
              - (toOrdinal (ty, tm, td) : Int)) ∧
        (isLeap (if dateLt (thisYearOcc 2 29 ty) (ty, tm, td) then ty + 1 else ty) = true →
          n = (toOrdinal ((if dateLt (thisYearOcc 2 29 ty) (ty, tm, td) then ty + 1 else ty),
                2, 29) : Int)
              - (toOrdinal (ty, tm, td) : Int))) := by
  obtain ⟨hty1, hty2, htm1, htm2, htd1, htd2⟩ := (validDate_iff ty tm td).1 ht
  obtain ⟨hrfy, hvA, hshA⟩ := thisYearOcc_spec by0 2 29 ty hb hty1 hty2
  set A := thisYearOcc 2 29 ty with hAdef
  cases hlt : dateLt A (ty, tm, td) with
  | false =>
    have heval : daysToBirthday 2 29 (ty, tm, td)
        = some ((toOrdinal A : Int) - (toOrdinal (ty, tm, td) : Int)) := by
      unfold daysToBirthday
      rw [show replaceYearFallback 2 29 ((ty, tm, td) : PDate).1 = some A from hrfy]
      dsimp only
      rw [if_neg (show ¬ dateLt A (ty, tm, td) = true by
        rw [hlt]; exact Bool.false_ne_true)]
    rw [if_neg (show ¬ (false = true) by decide)]
    refine ⟨_, heval, ?_, ?_⟩
    · intro hlyF
      rcases feb29_occ by0 ty hb hty1 hty2 with ⟨hL, hA⟩ | ⟨hL, hA⟩
      · rw [hL] at hlyF
        cases hlyF
      · rw [← hAdef] at hA
        rw [hA]
    · intro hlyT
      rcases feb29_occ by0 ty hb hty1 hty2 with ⟨hL, hA⟩ | ⟨hL, hA⟩
      · rw [← hAdef] at hA
        rw [hA]
      · rw [hL] at hlyT
        cases hlyT
  | true =>
    have hty9 : ty < 9999 := by
      rcases hdom with h | h
      · exact h
      · exact absurd (hlt.symm.trans h) (by decide)
    obtain ⟨hrfy1, hvB, hshB⟩ := thisYearOcc_spec by0 2 29 (ty + 1) hb (by omega) (by omega)
    set B := thisYearOcc 2 29 (ty + 1) with hBdef
    have heval : daysToBirthday 2 29 (ty, tm, td)
        = some ((toOrdinal B : Int) - (toOrdinal (ty, tm, td) : Int)) := by
      unfold daysToBirthday
      rw [show replaceYearFallback 2 29 ((ty, tm, td) : PDate).1 = some A from hrfy]
      dsimp only
      rw [if_pos hlt]
      rw [show replaceYearFallback 2 29 (((ty, tm, td) : PDate).1 + 1) = some B from hrfy1]
    rw [if_pos (show (true : Bool) = true from rfl)]
    refine ⟨_, heval, ?_, ?_⟩
    · intro hlyF
      rcases feb29_occ by0 (ty + 1) hb (by omega) (by omega) with ⟨hL, hB⟩ | ⟨hL, hB⟩
      · rw [hL] at hlyF
        cases hlyF
      · rw [← hBdef] at hB
        rw [hB]
    · intro hlyT
      rcases feb29_occ by0 (ty + 1) hb (by omega) (by omega) with ⟨hL, hB⟩ | ⟨hL, hB⟩
      · rw [← hBdef] at hB
        rw [hB]
      · rw [hL] at hlyT
        cases hlyT

/-- Counterexample to C4 as stated: with the (valid) reference date
9999-03-01 and a Feb-29 birthday the code *does* fail: the Feb-28
fallback for year 9999 has passed, and `replace(year=10000)` raises a
`ValueError` that the fallback line re-raises outside any `try`. -/
theorem c4_counterexample :
    validDate 9999 3 1 = true ∧ validDate 2000 2 29 = true ∧
    daysToBirthday 2 29 (9999, 3, 1) = none :=
  ⟨rfl, rfl, rfl⟩

/-- Witness for C4 (amended): birthday 29-02-2000 and reference date
2023-01-15. -/
theorem c4_witness :
    ∃ n : Int, daysToBirthday 2 29 (2023, 1, 15) = some n ∧
      ((isLeap (if dateLt (thisYearOcc 2 29 2023) (2023, 1, 15) then 2023 + 1 else 2023) = false →
          n = (toOrdinal ((if dateLt (thisYearOcc 2 29 2023) (2023, 1, 15) then 2023 + 1
                else 2023), 2, 28) : Int)
              - (toOrdinal ((2023, 1, 15) : PDate) : Int)) ∧
        (isLeap (if dateLt (thisYearOcc 2 29 2023) (2023, 1, 15) then 2023 + 1 else 2023) = true →
          n = (toOrdinal ((if dateLt (thisYearOcc 2 29 2023) (2023, 1, 15) then 2023 + 1
                else 2023), 2, 29) : Int)
              - (toOrdinal ((2023, 1, 15) : PDate) : Int))) :=
  c4_amended 2000 2023 1 15 rfl rfl (Or.inl (by decide))

/-- Counterexample to C5 as stated: with birthday Feb 29 and reference
date 2023-02-28 (month/day 2/28, different from the birthday's 2/29)
the code still returns 0, because the non-leap fallback maps the
birthday onto the reference date itself. -/
theorem c5_counterexample :
    daysToBirthday 2 29 (2023, 2, 28) = some 0 ∧ ¬ ((2 : Nat) = 2 ∧ (28 : Nat) = 29) :=
  ⟨rfl, by decide⟩

/-- Witness for C5 (amended): birthday 15-06-2000 and reference date
2023-06-15 — the countdown is 0 and the month/day match. -/
theorem c5_witness :
    ∃ n : Int, daysToBirthday 6 15 (2023, 6, 15) = some n ∧ 0 ≤ n ∧ n ≤ 365 ∧
      (n = 0 ↔ ((6 = 6 ∧ 15 = 15) ∨
        (6 = 2 ∧ 15 = 29 ∧ isLeap 2023 = false ∧ 6 = 2 ∧ 15 = 28))) :=
  c5_amended 2000 6 15 2023 6 15 rfl rfl (Or.inl (by decide))
